import Mathlib

/-!
Shallow embedding of `src/concepts/Space/SpaceConcept.ts` (the Space
hierarchy manager of the Findful repository) and proofs about it.

TypeScript `Space` objects are mutable records linked by object
references (`parent`, `children`).  We model the object graph as an
arena: a list `heap` of `SpaceData` records indexed by allocation order,
where a TypeScript object reference is an index into the arena.  The
private field `this.spaces : Space[]` of class `Spaces` becomes the list
`spaces` of indices.  Deleted spaces stay in the arena (the garbage
collector keeps objects that are still referenced); membership in
`spaces` is what `this.spaces.includes(...)` observes.

The TypeScript `children?: Space[]` field is optional: it is `undefined`
until the first child is pushed, and an (possibly empty) array
afterwards.  We keep that distinction with `Option (List Nat)`, because
the source branches on the truthiness of `parent.children`.

The source reports failures by `console.log` + early `return`; the
distinct log messages correspond to the spec's failure kinds, which we
record in `SpaceError`.  Every operation returns the (possibly updated)
store together with the outcome.
-/

structure User where
  username : String
deriving DecidableEq, Repr

structure SpaceData where
  owner : User
  name : String
  spaceType : String
  parent : Option Nat
  children : Option (List Nat)
deriving DecidableEq, Repr

instance : Inhabited SpaceData :=
  ⟨⟨⟨""⟩, "", "", none, none⟩⟩

structure Config where
  heap : List SpaceData
  spaces : List Nat
deriving DecidableEq, Repr

/-- Dereference a Space object (arena index). -/
def getS (cfg : Config) (i : Nat) : SpaceData :=
  cfg.heap.getD i default

inductive SpaceError where
  | NameConflict
  | NotFound
  | OwnershipMismatch
  | NotEmpty
deriving DecidableEq, Repr

/-- `for (const child of kids) if (child.name == name) ...` -/
def childClash (cfg : Config) (kids : List Nat) (n : String) : Prop :=
  ∃ c ∈ kids, (getS cfg c).name = n

instance (cfg : Config) (kids : List Nat) (n : String) :
    Decidable (childClash cfg kids n) :=
  decidable_of_iff (∃ c ∈ kids, (getS cfg c).name = n) Iff.rfl

/-- `for (const space of this.spaces) if (space.parent == null &&
space.owner.username == owner.username && space.name == name) ...` -/
def rootClash (cfg : Config) (owner : User) (n : String) : Prop :=
  ∃ i ∈ cfg.spaces, (getS cfg i).parent = none ∧
    (getS cfg i).owner.username = owner.username ∧ (getS cfg i).name = n

instance (cfg : Config) (owner : User) (n : String) :
    Decidable (rootClash cfg owner n) :=
  decidable_of_iff (∃ i ∈ cfg.spaces, (getS cfg i).parent = none ∧
    (getS cfg i).owner.username = owner.username ∧ (getS cfg i).name = n) Iff.rfl

/-- The mutation part of `createSpace` after the uniqueness check passed:
allocate the record (without a `children` field), push it onto
`this.spaces` and, if a parent was given, push it onto
`parent.children` (initialising the array if needed). -/
def pushNew (cfg : Config) (owner : User) (name spaceType : String)
    (parent : Option Nat) : Config × Except SpaceError Nat :=
  let newId := cfg.heap.length
  let heap1 := cfg.heap ++ [⟨owner, name, spaceType, parent, none⟩]
  let spaces1 := cfg.spaces ++ [newId]
  match parent with
  | none => (⟨heap1, spaces1⟩, .ok newId)
  | some pid =>
    let p := heap1.getD pid default
    (⟨heap1.set pid { p with children := some (p.children.getD [] ++ [newId]) },
      spaces1⟩, .ok newId)

/-- `Spaces.createSpace`.  Note the source's guard is
`if (parent && parent.children)`: a given parent whose `children` field
is still `undefined` falls through to the root-uniqueness branch. -/
def createSpace (cfg : Config) (owner : User) (name spaceType : String)
    (parent : Option Nat) : Config × Except SpaceError Nat :=
  match parent with
  | some pid =>
    match (getS cfg pid).children with
    | some kids =>
      if childClash cfg kids name then (cfg, .error .NameConflict)
      else pushNew cfg owner name spaceType parent
    | none =>
      if rootClash cfg owner name then (cfg, .error .NameConflict)
      else pushNew cfg owner name spaceType parent
  | none =>
    if rootClash cfg owner name then (cfg, .error .NameConflict)
    else pushNew cfg owner name spaceType parent

/-- `oldParent.children = oldParent.children.filter(child => child !== space)`
guarded by `if (oldParent.children)`. -/
def detachChild (cfg : Config) (p c : Nat) : Config :=
  match (getS cfg p).children with
  | some kids =>
    ⟨cfg.heap.set p { getS cfg p with children := some (kids.filter (fun x => x != c)) },
      cfg.spaces⟩
  | none => cfg

/-- `if (!newParent.children) newParent.children = [];
newParent.children.push(space)`. -/
def attachChild (cfg : Config) (p c : Nat) : Config :=
  ⟨cfg.heap.set p
    { getS cfg p with children := some ((getS cfg p).children.getD [] ++ [c]) },
    cfg.spaces⟩

/-- `space.parent = newParent`. -/
def setParent (cfg : Config) (c : Nat) (p : Option Nat) : Config :=
  ⟨cfg.heap.set c { getS cfg c with parent := p }, cfg.spaces⟩

/-- `space.name = newName`. -/
def setName (cfg : Config) (c : Nat) (n : String) : Config :=
  ⟨cfg.heap.set c { getS cfg c with name := n }, cfg.spaces⟩

/-- `Spaces.moveSpace`. -/
def moveSpace (cfg : Config) (owner : User) (space newParent : Nat) :
    Config × Except SpaceError Unit :=
  if space ∈ cfg.spaces ∧ newParent ∈ cfg.spaces then
    if (getS cfg space).owner.username = owner.username ∧
        (getS cfg newParent).owner.username = owner.username then
      if childClash cfg ((getS cfg newParent).children.getD []) (getS cfg space).name then
        (cfg, .error .NameConflict)
      else
        let cfg1 :=
          match (getS cfg space).parent with
          | some op => detachChild cfg op space
          | none => cfg
        let cfg2 := attachChild cfg1 newParent space
        (setParent cfg2 space (some newParent), .ok ())
    else (cfg, .error .OwnershipMismatch)
  else (cfg, .error .NotFound)

/-- `Spaces.renameSpace`.  The sibling check has the same
`if (space.parent && space.parent.children)` truthiness structure as
`createSpace`, and does not exclude `space` itself. -/
def renameSpace (cfg : Config) (owner : User) (space : Nat) (newName : String) :
    Config × Except SpaceError Unit :=
  if space ∈ cfg.spaces then
    if (getS cfg space).owner.username = owner.username then
      match (getS cfg space).parent with
      | some p =>
        match (getS cfg p).children with
        | some kids =>
          if childClash cfg kids newName then (cfg, .error .NameConflict)
          else (setName cfg space newName, .ok ())
        | none =>
          if rootClash cfg owner newName then (cfg, .error .NameConflict)
          else (setName cfg space newName, .ok ())
      | none =>
        if rootClash cfg owner newName then (cfg, .error .NameConflict)
        else (setName cfg space newName, .ok ())
    else (cfg, .error .OwnershipMismatch)
  else (cfg, .error .NotFound)

/-- `Spaces.deleteSpace`.  The emptiness check is
`if (space.children && space.children.length > 0)`. -/
def deleteSpace (cfg : Config) (owner : User) (space : Nat) :
    Config × Except SpaceError Unit :=
  if space ∈ cfg.spaces then
    if (getS cfg space).owner.username = owner.username then
      if 0 < ((getS cfg space).children.getD []).length then (cfg, .error .NotEmpty)
      else
        let cfg1 :=
          match (getS cfg space).parent with
          | some p => detachChild cfg p space
          | none => cfg
        (⟨cfg1.heap, cfg1.spaces.filter (fun x => x != space)⟩, .ok ())
    else (cfg, .error .OwnershipMismatch)
  else (cfg, .error .NotFound)

/-- `Spaces.getSpaceChildren`: returns the `children` array when the
field is defined, and `void` (here `none`) otherwise. -/
def getSpaceChildren (cfg : Config) (space : Nat) : Option (List Nat) :=
  (getS cfg space).children

/-- `Spaces.getSpaces`. -/
def getSpaces (cfg : Config) : List Nat :=
  cfg.spaces

/-- The empty store: `private spaces: Space[] = []` over an empty arena. -/
def emptyConfig : Config := ⟨[], []⟩

/-- One call of the Space manager.  The object references passed for
`space`/`newParent` may be any allocated object (the operations
themselves check membership in `this.spaces`); the `parent` argument of
`createSpace` is a reference too, hence allocated, but need not be a
member of `this.spaces` (the source never checks that). -/
inductive Step : Config → Config → Prop where
  | create (cfg : Config) (owner : User) (name spaceType : String)
      (parent : Option Nat)
      (hp : ∀ pid, parent = some pid → pid < cfg.heap.length) :
      Step cfg (createSpace cfg owner name spaceType parent).1
  | move (cfg : Config) (owner : User) (s np : Nat) :
      Step cfg (moveSpace cfg owner s np).1
  | rename (cfg : Config) (owner : User) (s : Nat) (n : String) :
      Step cfg (renameSpace cfg owner s n).1
  | delete (cfg : Config) (owner : User) (s : Nat) :
      Step cfg (deleteSpace cfg owner s).1

/-- States reachable from the empty store by any call sequence. -/
inductive Reachable : Config → Prop where
  | empty : Reachable emptyConfig
  | step {cfg cfg' : Config} : Reachable cfg → Step cfg cfg' → Reachable cfg'

/-! ### Concrete demonstration stores -/

def alice : User := ⟨"alice"⟩

def bob : User := ⟨"bob"⟩

/-- One parentless space "a" owned by alice (id 0). -/
def cfgOneRoot : Config := (createSpace emptyConfig alice "a" "t" none).1

/-- Parentless spaces "x" (id 0) and "P" (id 1), both owned by alice. -/
def cfgTwoRoots : Config :=
  (createSpace (createSpace emptyConfig alice "x" "t" none).1 alice "P" "t" none).1

/-- Root "a" (id 0) with child "b" (id 1). -/
def cfgParentChild : Config := (createSpace cfgOneRoot alice "b" "t" (some 0)).1

/-- The store after `moveSpace(alice, a, b)` on `cfgParentChild`:
the code performs the move and creates a parent cycle. -/
def cfgCycle : Config := (moveSpace cfgParentChild alice 0 1).1

/-- `cfgParentChild` after deleting the child "b": root "a" (id 0) keeps
an initialised empty children array (`some []`). -/
def cfgEmptiedParent : Config := (deleteSpace cfgParentChild alice 1).1

/-- Roots "dresser" (id 0) and "shelf" (id 1), with "drawer 1" (id 2)
under the dresser. -/
def cfgDresser : Config :=
  (createSpace (createSpace (createSpace emptyConfig alice "dresser" "cabinet" none).1
    alice "shelf" "shelf" none).1 alice "drawer 1" "drawer" (some 0)).1

/-! ### The store invariant -/

instance instDecidableOptSomeForall (o : Option Nat) (P : Nat → Prop)
    [inst : ∀ p, Decidable (P p)] : Decidable (∀ p, o = some p → P p) :=
  match o with
  | none => isTrue (fun p h => nomatch h)
  | some a =>
    match inst a with
    | isTrue h => isTrue (fun p hp => by cases hp; exact h)
    | isFalse h => isFalse (fun hall => h (hall a rfl))

/-- The children cache of object `p`, as a list (empty when the field is
still `undefined`). -/
def kidsOf (cfg : Config) (p : Nat) : List Nat :=
  (getS cfg p).children.getD []

/-- Well-formedness of a store configuration; holds in every reachable
state and is preserved by all four operations.

* every member of `this.spaces` is an allocated object, listed once;
* a member's `parent` reference is allocated and lists the member among
  its children;
* every child listed in any object's children cache is a member of
  `this.spaces` whose `parent` points back at that object;
* the names in any object's children cache are pairwise distinct;
* two distinct parentless members with the same owner have distinct
  names. -/
def StoreInv (cfg : Config) : Prop :=
  (∀ i ∈ cfg.spaces, i < cfg.heap.length) ∧
  cfg.spaces.Nodup ∧
  (∀ i ∈ cfg.spaces, ∀ p, (getS cfg i).parent = some p →
    p < cfg.heap.length ∧ i ∈ kidsOf cfg p) ∧
  (∀ p, p < cfg.heap.length → ∀ c ∈ kidsOf cfg p,
    c ∈ cfg.spaces ∧ (getS cfg c).parent = some p) ∧
  (∀ p, p < cfg.heap.length → ((kidsOf cfg p).map (fun c => (getS cfg c).name)).Nodup) ∧
  (∀ i ∈ cfg.spaces, ∀ j ∈ cfg.spaces, i ≠ j →
    (getS cfg i).parent = none → (getS cfg j).parent = none →
    (getS cfg i).owner.username = (getS cfg j).owner.username →
    (getS cfg i).name ≠ (getS cfg j).name)

instance (cfg : Config) : Decidable (StoreInv cfg) := by
  unfold StoreInv kidsOf
  infer_instance

/-! ### Arena access lemmas -/

theorem getS_set_eq {heap : List SpaceData} {sp : List Nat} {i : Nat}
    {a : SpaceData} (h : i < heap.length) :
    getS ⟨heap.set i a, sp⟩ i = a := by
  simp [getS, List.getD_eq_getElem?_getD, List.getElem?_set_self h]

theorem getS_set_ne {heap : List SpaceData} {sp : List Nat} {i j : Nat}
    {a : SpaceData} (h : i ≠ j) :
    getS ⟨heap.set i a, sp⟩ j = getS ⟨heap, sp⟩ j := by
  simp [getS, List.getD_eq_getElem?_getD, List.getElem?_set_ne h]

theorem getS_append_lt {heap : List SpaceData} {sp sp' : List Nat} {i : Nat}
    {a : SpaceData} (h : i < heap.length) :
    getS ⟨heap ++ [a], sp⟩ i = getS ⟨heap, sp'⟩ i := by
  simp [getS, List.getD_eq_getElem?_getD, List.getElem?_append, h]

theorem getS_append_len {heap : List SpaceData} {sp : List Nat} {a : SpaceData} :
    getS ⟨heap ++ [a], sp⟩ heap.length = a := by
  simp [getS, List.getD_eq_getElem?_getD, List.getElem?_concat_length]

theorem getS_spaces_irrel {heap : List SpaceData} {sp sp' : List Nat} {i : Nat} :
    getS ⟨heap, sp⟩ i = getS ⟨heap, sp'⟩ i := rfl

/-! ### Field lemmas for the mutation combinators -/

theorem detachChild_spaces (cfg : Config) (p c : Nat) :
    (detachChild cfg p c).spaces = cfg.spaces := by
  unfold detachChild
  cases (getS cfg p).children <;> rfl

theorem detachChild_heap_length (cfg : Config) (p c : Nat) :
    (detachChild cfg p c).heap.length = cfg.heap.length := by
  unfold detachChild
  cases (getS cfg p).children <;> simp

theorem getS_detachChild_ne (cfg : Config) {p c j : Nat} (h : j ≠ p) :
    getS (detachChild cfg p c) j = getS cfg j := by
  unfold detachChild
  cases (getS cfg p).children with
  | none => rfl
  | some kids =>
    show getS ⟨cfg.heap.set p _, _⟩ j = getS cfg j
    rw [getS_set_ne (Ne.symm h)]

theorem getS_detachChild_self (cfg : Config) {p : Nat} (c : Nat)
    (hp : p < cfg.heap.length) :
    getS (detachChild cfg p c) p =
      match (getS cfg p).children with
      | some kids => { getS cfg p with children := some (kids.filter (fun x => x != c)) }
      | none => getS cfg p := by
  unfold detachChild
  cases (getS cfg p).children with
  | none => rfl
  | some kids =>
    show getS ⟨cfg.heap.set p _, _⟩ p = _
    rw [getS_set_eq hp]

theorem attachChild_spaces (cfg : Config) (p c : Nat) :
    (attachChild cfg p c).spaces = cfg.spaces := rfl

theorem attachChild_heap_length (cfg : Config) (p c : Nat) :
    (attachChild cfg p c).heap.length = cfg.heap.length := by
  simp [attachChild]

theorem getS_attachChild_ne (cfg : Config) {p c j : Nat} (h : j ≠ p) :
    getS (attachChild cfg p c) j = getS cfg j := by
  unfold attachChild
  exact getS_set_ne (Ne.symm h)

theorem getS_attachChild_self (cfg : Config) {p : Nat} (c : Nat)
    (hp : p < cfg.heap.length) :
    getS (attachChild cfg p c) p =
      { getS cfg p with children := some ((getS cfg p).children.getD [] ++ [c]) } := by
  unfold attachChild
  exact getS_set_eq hp

theorem setParent_spaces (cfg : Config) (c : Nat) (p : Option Nat) :
    (setParent cfg c p).spaces = cfg.spaces := rfl

theorem setParent_heap_length (cfg : Config) (c : Nat) (p : Option Nat) :
    (setParent cfg c p).heap.length = cfg.heap.length := by
  simp [setParent]

theorem getS_setParent_ne (cfg : Config) {c j : Nat} (p : Option Nat) (h : j ≠ c) :
    getS (setParent cfg c p) j = getS cfg j := by
  unfold setParent
  exact getS_set_ne (Ne.symm h)

theorem getS_setParent_self (cfg : Config) {c : Nat} (p : Option Nat)
    (hc : c < cfg.heap.length) :
    getS (setParent cfg c p) c = { getS cfg c with parent := p } := by
  unfold setParent
  exact getS_set_eq hc

theorem setName_spaces (cfg : Config) (c : Nat) (n : String) :
    (setName cfg c n).spaces = cfg.spaces := rfl

theorem setName_heap_length (cfg : Config) (c : Nat) (n : String) :
    (setName cfg c n).heap.length = cfg.heap.length := by
  simp [setName]

theorem getS_setName_ne (cfg : Config) {c j : Nat} (n : String) (h : j ≠ c) :
    getS (setName cfg c n) j = getS cfg j := by
  unfold setName
  exact getS_set_ne (Ne.symm h)

theorem getS_setName_self (cfg : Config) {c : Nat} (n : String)
    (hc : c < cfg.heap.length) :
    getS (setName cfg c n) c = { getS cfg c with name := n } := by
  unfold setName
  exact getS_set_eq hc

theorem storeInv_empty : StoreInv emptyConfig := by decide

/-! ### Per-field stability lemmas for the combinators -/

theorem getS_set_cases (heap : List SpaceData) (sp sp' : List Nat) (c j : Nat)
    (a : SpaceData) :
    getS ⟨heap.set c a, sp⟩ j = getS ⟨heap, sp'⟩ j ∨
      (j = c ∧ c < heap.length ∧ getS ⟨heap.set c a, sp⟩ j = a) := by
  by_cases h : j = c
  · subst h
    by_cases hc : j < heap.length
    · exact Or.inr ⟨rfl, hc, getS_set_eq hc⟩
    · left
      rw [List.set_eq_of_length_le (Nat.le_of_not_lt hc)]
      rfl
  · exact Or.inl (getS_set_ne (Ne.symm h))

theorem parent_setName (cfg : Config) (c : Nat) (n : String) (j : Nat) :
    (getS (setName cfg c n) j).parent = (getS cfg j).parent := by
  rcases getS_set_cases cfg.heap cfg.spaces cfg.spaces c j
      { getS cfg c with name := n } with h | ⟨rfl, _, h⟩ <;>
    rw [setName, h]

theorem owner_setName (cfg : Config) (c : Nat) (n : String) (j : Nat) :
    (getS (setName cfg c n) j).owner = (getS cfg j).owner := by
  rcases getS_set_cases cfg.heap cfg.spaces cfg.spaces c j
      { getS cfg c with name := n } with h | ⟨rfl, _, h⟩ <;>
    rw [setName, h]

theorem children_setName (cfg : Config) (c : Nat) (n : String) (j : Nat) :
    (getS (setName cfg c n) j).children = (getS cfg j).children := by
  rcases getS_set_cases cfg.heap cfg.spaces cfg.spaces c j
      { getS cfg c with name := n } with h | ⟨rfl, _, h⟩ <;>
    rw [setName, h]

theorem kidsOf_setName (cfg : Config) (c : Nat) (n : String) (j : Nat) :
    kidsOf (setName cfg c n) j = kidsOf cfg j := by
  unfold kidsOf
  rw [children_setName]

theorem name_setName_ne (cfg : Config) {c j : Nat} (n : String) (h : j ≠ c) :
    (getS (setName cfg c n) j).name = (getS cfg j).name := by
  rw [getS_setName_ne cfg n h]

theorem parent_setParent (cfg : Config) (c : Nat) (po : Option Nat) (j : Nat) :
    (getS (setParent cfg c po) j).parent =
      if j = c ∧ c < cfg.heap.length then po else (getS cfg j).parent := by
  by_cases hj : j = c
  · subst hj
    by_cases hc : j < cfg.heap.length
    · rw [setParent, getS_set_eq hc]
      simp [hc]
    · rw [setParent, List.set_eq_of_length_le (Nat.le_of_not_lt hc)]
      simp [hc]
  · rw [setParent, getS_set_ne (Ne.symm hj)]
    simp [hj]

theorem owner_setParent (cfg : Config) (c : Nat) (po : Option Nat) (j : Nat) :
    (getS (setParent cfg c po) j).owner = (getS cfg j).owner := by
  rcases getS_set_cases cfg.heap cfg.spaces cfg.spaces c j
      { getS cfg c with parent := po } with h | ⟨rfl, _, h⟩ <;>
    rw [setParent, h]

theorem name_setParent (cfg : Config) (c : Nat) (po : Option Nat) (j : Nat) :
    (getS (setParent cfg c po) j).name = (getS cfg j).name := by
  rcases getS_set_cases cfg.heap cfg.spaces cfg.spaces c j
      { getS cfg c with parent := po } with h | ⟨rfl, _, h⟩ <;>
    rw [setParent, h]

theorem children_setParent (cfg : Config) (c : Nat) (po : Option Nat) (j : Nat) :
    (getS (setParent cfg c po) j).children = (getS cfg j).children := by
  rcases getS_set_cases cfg.heap cfg.spaces cfg.spaces c j
      { getS cfg c with parent := po } with h | ⟨rfl, _, h⟩ <;>
    rw [setParent, h]

theorem kidsOf_setParent (cfg : Config) (c : Nat) (po : Option Nat) (j : Nat) :
    kidsOf (setParent cfg c po) j = kidsOf cfg j := by
  unfold kidsOf
  rw [children_setParent]

theorem parent_attachChild (cfg : Config) (p c : Nat) (j : Nat) :
    (getS (attachChild cfg p c) j).parent = (getS cfg j).parent := by
  rcases getS_set_cases cfg.heap cfg.spaces cfg.spaces p j
      { getS cfg p with children := some ((getS cfg p).children.getD [] ++ [c]) }
    with h | ⟨rfl, _, h⟩ <;> rw [attachChild, h]

theorem owner_attachChild (cfg : Config) (p c : Nat) (j : Nat) :
    (getS (attachChild cfg p c) j).owner = (getS cfg j).owner := by
  rcases getS_set_cases cfg.heap cfg.spaces cfg.spaces p j
      { getS cfg p with children := some ((getS cfg p).children.getD [] ++ [c]) }
    with h | ⟨rfl, _, h⟩ <;> rw [attachChild, h]

theorem name_attachChild (cfg : Config) (p c : Nat) (j : Nat) :
    (getS (attachChild cfg p c) j).name = (getS cfg j).name := by
  rcases getS_set_cases cfg.heap cfg.spaces cfg.spaces p j
      { getS cfg p with children := some ((getS cfg p).children.getD [] ++ [c]) }
    with h | ⟨rfl, _, h⟩ <;> rw [attachChild, h]

theorem kidsOf_attachChild (cfg : Config) (p c : Nat) (j : Nat) :
    kidsOf (attachChild cfg p c) j =
      if j = p ∧ p < cfg.heap.length then kidsOf cfg p ++ [c] else kidsOf cfg j := by
  by_cases hj : j = p
  · subst hj
    by_cases hp : j < cfg.heap.length
    · unfold kidsOf
      rw [attachChild, getS_set_eq hp]
      simp [hp]
    · unfold kidsOf
      rw [attachChild, List.set_eq_of_length_le (Nat.le_of_not_lt hp)]
      simp [hp]
  · unfold kidsOf
    rw [attachChild, getS_set_ne (Ne.symm hj)]
    simp [hj]

theorem parent_detachChild (cfg : Config) (p c : Nat) (j : Nat) :
    (getS (detachChild cfg p c) j).parent = (getS cfg j).parent := by
  unfold detachChild
  cases hk : (getS cfg p).children with
  | none => rfl
  | some kids =>
    rcases getS_set_cases cfg.heap cfg.spaces cfg.spaces p j
        { getS cfg p with children := some (kids.filter (fun x => x != c)) }
      with h | ⟨rfl, _, h⟩ <;> rw [h]

theorem owner_detachChild (cfg : Config) (p c : Nat) (j : Nat) :
    (getS (detachChild cfg p c) j).owner = (getS cfg j).owner := by
  unfold detachChild
  cases hk : (getS cfg p).children with
  | none => rfl
  | some kids =>
    rcases getS_set_cases cfg.heap cfg.spaces cfg.spaces p j
        { getS cfg p with children := some (kids.filter (fun x => x != c)) }
      with h | ⟨rfl, _, h⟩ <;> rw [h]

theorem name_detachChild (cfg : Config) (p c : Nat) (j : Nat) :
    (getS (detachChild cfg p c) j).name = (getS cfg j).name := by
  unfold detachChild
  cases hk : (getS cfg p).children with
  | none => rfl
  | some kids =>
    rcases getS_set_cases cfg.heap cfg.spaces cfg.spaces p j
        { getS cfg p with children := some (kids.filter (fun x => x != c)) }
      with h | ⟨rfl, _, h⟩ <;> rw [h]

theorem kidsOf_detachChild (cfg : Config) (p c : Nat) (j : Nat) :
    kidsOf (detachChild cfg p c) j =
      if j = p ∧ p < cfg.heap.length then (kidsOf cfg p).filter (fun x => x != c)
      else kidsOf cfg j := by
  unfold detachChild
  cases hk : (getS cfg p).children with
  | none =>
    by_cases hj : j = p
    · subst hj
      simp [kidsOf, hk]
    · simp [hj]
  | some kids =>
    by_cases hj : j = p
    · subst hj
      by_cases hp : j < cfg.heap.length
      · unfold kidsOf
        rw [getS_set_eq hp]
        simp [hp, hk]
      · unfold kidsOf
        dsimp only
        rw [List.set_eq_of_length_le (Nat.le_of_not_lt hp)]
        simp [hp, hk]
    · unfold kidsOf
      rw [getS_set_ne (Ne.symm hj)]
      simp [hj]

theorem name_setName_self (cfg : Config) {c : Nat} (n : String)
    (hc : c < cfg.heap.length) :
    (getS (setName cfg c n) c).name = n := by
  rw [getS_setName_self cfg n hc]

/-! ### Preservation of the invariant: renameSpace -/

theorem storeInv_setName_of_parent (cfg : Config) (s : Nat) (n : String)
    (hI : StoreInv cfg) (hs : s ∈ cfg.spaces) {p : Nat} {kids : List Nat}
    (hp : (getS cfg s).parent = some p)
    (hk : (getS cfg p).children = some kids)
    (hcl : ¬ childClash cfg kids n) :
    StoreInv (setName cfg s n) := by
  obtain ⟨hA1, hA2, hA3, hA4, hA5, hA6⟩ := hI
  refine ⟨?_, ?_, ?_, ?_, ?_, ?_⟩
  · intro i hi
    rw [setName_heap_length]
    exact hA1 i hi
  · exact hA2
  · intro i hi q hq
    rw [parent_setName] at hq
    rw [setName_heap_length, kidsOf_setName]
    exact hA3 i hi q hq
  · intro q hq c hc
    rw [setName_heap_length] at hq
    rw [kidsOf_setName] at hc
    refine ⟨(hA4 q hq c hc).1, ?_⟩
    rw [parent_setName]
    exact (hA4 q hq c hc).2
  · intro q hq
    rw [setName_heap_length] at hq
    rw [kidsOf_setName]
    by_cases hsq : s ∈ kidsOf cfg q
    · have hqp : q = p := by
        have h2 := (hA4 q hq s hsq).2
        rw [h2] at hp
        exact Option.some.inj hp
      subst hqp
      have hkk : kidsOf cfg q = kids := by
        unfold kidsOf
        rw [hk]
        rfl
      have hnodup := hA5 q hq
      rw [hkk] at hnodup ⊢
      have hkn : kids.Nodup := List.Nodup.of_map _ hnodup
      apply List.Nodup.map_on _ hkn
      intro x hx y hy hxy
      by_cases hxs : x = s
      · by_cases hys : y = s
        · rw [hxs, hys]
        · exfalso
          rw [hxs, name_setName_self cfg n (hA1 s hs),
            name_setName_ne cfg n hys] at hxy
          exact hcl ⟨y, hy, hxy.symm⟩
      · by_cases hys : y = s
        · exfalso
          rw [hys, name_setName_self cfg n (hA1 s hs),
            name_setName_ne cfg n hxs] at hxy
          exact hcl ⟨x, hx, hxy⟩
        · rw [name_setName_ne cfg n hxs, name_setName_ne cfg n hys] at hxy
          exact List.inj_on_of_nodup_map hnodup hx hy hxy
    · have hmap : (kidsOf cfg q).map (fun c => (getS (setName cfg s n) c).name)
          = (kidsOf cfg q).map (fun c => (getS cfg c).name) :=
        List.map_congr_left (fun c hc =>
          name_setName_ne cfg n (fun h => hsq (h ▸ hc)))
      rw [hmap]
      exact hA5 q hq
  · intro i hi j hj hij hpi hpj how
    rw [parent_setName] at hpi hpj
    rw [owner_setName, owner_setName] at how
    have his : i ≠ s := by
      intro h
      rw [h, hp] at hpi
      exact Option.noConfusion hpi
    have hjs : j ≠ s := by
      intro h
      rw [h, hp] at hpj
      exact Option.noConfusion hpj
    rw [name_setName_ne cfg n his, name_setName_ne cfg n hjs]
    exact hA6 i hi j hj hij hpi hpj how

theorem storeInv_setName_of_root (cfg : Config) (o : User) (s : Nat) (n : String)
    (hI : StoreInv cfg) (hs : s ∈ cfg.spaces)
    (hp : (getS cfg s).parent = none)
    (ho : (getS cfg s).owner.username = o.username)
    (hcl : ¬ rootClash cfg o n) :
    StoreInv (setName cfg s n) := by
  obtain ⟨hA1, hA2, hA3, hA4, hA5, hA6⟩ := hI
  refine ⟨?_, ?_, ?_, ?_, ?_, ?_⟩
  · intro i hi
    rw [setName_heap_length]
    exact hA1 i hi
  · exact hA2
  · intro i hi q hq
    rw [parent_setName] at hq
    rw [setName_heap_length, kidsOf_setName]
    exact hA3 i hi q hq
  · intro q hq c hc
    rw [setName_heap_length] at hq
    rw [kidsOf_setName] at hc
    refine ⟨(hA4 q hq c hc).1, ?_⟩
    rw [parent_setName]
    exact (hA4 q hq c hc).2
  · intro q hq
    rw [setName_heap_length] at hq
    rw [kidsOf_setName]
    have hsq : s ∉ kidsOf cfg q := by
      intro hsq
      have h2 := (hA4 q hq s hsq).2
      rw [hp] at h2
      exact Option.noConfusion h2
    have hmap : (kidsOf cfg q).map (fun c => (getS (setName cfg s n) c).name)
        = (kidsOf cfg q).map (fun c => (getS cfg c).name) :=
      List.map_congr_left (fun c hc =>
        name_setName_ne cfg n (fun h => hsq (h ▸ hc)))
    rw [hmap]
    exact hA5 q hq
  · intro i hi j hj hij hpi hpj how
    rw [parent_setName] at hpi hpj
    rw [owner_setName, owner_setName] at how
    by_cases his : i = s
    · subst his
      have hjs : j ≠ i := fun h => hij h.symm
      rw [name_setName_self cfg n (hA1 i hi), name_setName_ne cfg n hjs]
      intro hn
      exact hcl ⟨j, hj, hpj, by rw [← how, ho], hn.symm⟩
    · by_cases hjs : j = s
      · subst hjs
        rw [name_setName_self cfg n (hA1 j hj), name_setName_ne cfg n his]
        intro hn
        exact hcl ⟨i, hi, hpi, by rw [how, ho], hn⟩
      · rw [name_setName_ne cfg n his, name_setName_ne cfg n hjs]
        exact hA6 i hi j hj hij hpi hpj how

theorem storeInv_renameSpace (cfg : Config) (o : User) (s : Nat) (n : String)
    (hI : StoreInv cfg) : StoreInv (renameSpace cfg o s n).1 := by
  unfold renameSpace
  by_cases hs : s ∈ cfg.spaces
  · rw [if_pos hs]
    by_cases how : (getS cfg s).owner.username = o.username
    · rw [if_pos how]
      cases hp : (getS cfg s).parent with
      | some p =>
        dsimp only
        cases hk : (getS cfg p).children with
        | some kids =>
          dsimp only
          by_cases hcl : childClash cfg kids n
          · rw [if_pos hcl]
            exact hI
          · rw [if_neg hcl]
            exact storeInv_setName_of_parent cfg s n hI hs hp hk hcl
        | none =>
          dsimp only
          by_cases hcl : rootClash cfg o n
          · rw [if_pos hcl]
            exact hI
          · rw [if_neg hcl]
            exact absurd ((hI.2.2.1 s hs p hp).2) (by simp [kidsOf, hk])
      | none =>
        dsimp only
        by_cases hcl : rootClash cfg o n
        · rw [if_pos hcl]
          exact hI
        · rw [if_neg hcl]
          exact storeInv_setName_of_root cfg o s n hI hs hp how hcl
    · rw [if_neg how]
      exact hI
  · rw [if_neg hs]
    exact hI

/-! ### Preservation of the invariant: deleteSpace -/

theorem mem_filter_ne {l : List Nat} {i s : Nat} :
    i ∈ l.filter (fun x => x != s) ↔ i ∈ l ∧ i ≠ s := by
  simp [List.mem_filter]

theorem storeInv_delete_core (cfg : Config) (s : Nat) (hI : StoreInv cfg)
    (hs : s ∈ cfg.spaces) :
    StoreInv ⟨(match (getS cfg s).parent with
               | some p => detachChild cfg p s
               | none => cfg).heap,
              cfg.spaces.filter (fun x => x != s)⟩ := by
  obtain ⟨hA1, hA2, hA3, hA4, hA5, hA6⟩ := hI
  cases hp : (getS cfg s).parent with
  | none =>
    dsimp only
    refine ⟨?_, ?_, ?_, ?_, ?_, ?_⟩
    · intro i hi
      exact hA1 i (mem_filter_ne.mp hi).1
    · exact List.Nodup.filter _ hA2
    · intro i hi q hq
      exact hA3 i (mem_filter_ne.mp hi).1 q hq
    · intro q hq c hc
      have h := hA4 q hq c hc
      have hcs : c ≠ s := by
        intro h'
        rw [h', hp] at h
        exact Option.noConfusion h.2
      exact ⟨mem_filter_ne.mpr ⟨h.1, hcs⟩, h.2⟩
    · intro q hq
      exact hA5 q hq
    · intro i hi j hj hij hpi hpj how
      exact hA6 i (mem_filter_ne.mp hi).1 j (mem_filter_ne.mp hj).1 hij hpi hpj how
  | some p =>
    dsimp only
    have hplen : p < cfg.heap.length := (hA3 s hs p hp).1
    have hlen : (detachChild cfg p s).heap.length = cfg.heap.length :=
      detachChild_heap_length cfg p s
    have hgetS : ∀ j, getS ⟨(detachChild cfg p s).heap,
        cfg.spaces.filter (fun x => x != s)⟩ j = getS (detachChild cfg p s) j :=
      fun j => rfl
    have hkids : ∀ j, kidsOf ⟨(detachChild cfg p s).heap,
        cfg.spaces.filter (fun x => x != s)⟩ j = kidsOf (detachChild cfg p s) j :=
      fun j => rfl
    refine ⟨?_, ?_, ?_, ?_, ?_, ?_⟩
    · intro i hi
      show i < (detachChild cfg p s).heap.length
      rw [hlen]
      exact hA1 i (mem_filter_ne.mp hi).1
    · exact List.Nodup.filter _ hA2
    · intro i hi q hq
      obtain ⟨hi', his⟩ := mem_filter_ne.mp hi
      rw [hgetS, parent_detachChild] at hq
      have h := hA3 i hi' q hq
      refine ⟨by rw [show (⟨(detachChild cfg p s).heap,
        cfg.spaces.filter (fun x => x != s)⟩ : Config).heap.length
          = cfg.heap.length from hlen]; exact h.1, ?_⟩
      rw [hkids, kidsOf_detachChild]
      by_cases hqp : q = p
      · subst hqp
        rw [if_pos ⟨rfl, hplen⟩]
        exact mem_filter_ne.mpr ⟨h.2, his⟩
      · rw [if_neg (fun hh => hqp hh.1)]
        exact h.2
    · intro q hq c hc
      rw [hkids, kidsOf_detachChild] at hc
      rw [hgetS, parent_detachChild]
      by_cases hqp : q = p
      · subst hqp
        rw [if_pos ⟨rfl, hplen⟩] at hc
        obtain ⟨hck, hcs⟩ := mem_filter_ne.mp hc
        have h := hA4 q hplen c hck
        exact ⟨mem_filter_ne.mpr ⟨h.1, hcs⟩, h.2⟩
      · rw [if_neg (fun hh => hqp hh.1)] at hc
        have hq' : q < cfg.heap.length := by
          rw [← hlen]
          exact hq
        have h := hA4 q hq' c hc
        have hcs : c ≠ s := by
          intro h'
          rw [h'] at h
          rw [h.2] at hp
          exact hqp (Option.some.inj hp.symm).symm
        exact ⟨mem_filter_ne.mpr ⟨h.1, hcs⟩, h.2⟩
    · intro q hq
      rw [hkids, kidsOf_detachChild]
      have hq' : q < cfg.heap.length := by
        rw [← hlen]
        exact hq
      have hmap : ∀ l : List Nat,
          l.map (fun c => (getS ⟨(detachChild cfg p s).heap,
            cfg.spaces.filter (fun x => x != s)⟩ c).name)
          = l.map (fun c => (getS cfg c).name) :=
        fun l => List.map_congr_left (fun c _ => by
          rw [hgetS, name_detachChild])
      by_cases hqp : q = p
      · subst hqp
        rw [if_pos ⟨rfl, hplen⟩, hmap]
        exact List.Nodup.sublist
          (List.Sublist.map _ (List.filter_sublist _)) (hA5 q hq')
      · rw [if_neg (fun hh => hqp hh.1), hmap]
        exact hA5 q hq'
    · intro i hi j hj hij hpi hpj how
      obtain ⟨hi', _⟩ := mem_filter_ne.mp hi
      obtain ⟨hj', _⟩ := mem_filter_ne.mp hj
      rw [hgetS, parent_detachChild] at hpi hpj
      rw [hgetS, hgetS, owner_detachChild, owner_detachChild] at how
      have := hA6 i hi' j hj' hij hpi hpj how
      rw [hgetS, hgetS, name_detachChild, name_detachChild]
      exact this

theorem storeInv_deleteSpace (cfg : Config) (o : User) (s : Nat)
    (hI : StoreInv cfg) : StoreInv (deleteSpace cfg o s).1 := by
  unfold deleteSpace
  by_cases hs : s ∈ cfg.spaces
  · rw [if_pos hs]
    by_cases how : (getS cfg s).owner.username = o.username
    · rw [if_pos how]
      by_cases hne : 0 < ((getS cfg s).children.getD []).length
      · rw [if_pos hne]
        exact hI
      · rw [if_neg hne]
        have hsp : (match (getS cfg s).parent with
            | some p => detachChild cfg p s
            | none => cfg).spaces = cfg.spaces := by
          cases (getS cfg s).parent with
          | some p => exact detachChild_spaces cfg p s
          | none => rfl
        show StoreInv ⟨(match (getS cfg s).parent with
               | some p => detachChild cfg p s
               | none => cfg).heap,
              (match (getS cfg s).parent with
               | some p => detachChild cfg p s
               | none => cfg).spaces.filter (fun x => x != s)⟩
        rw [hsp]
        exact storeInv_delete_core cfg s hI hs
    · rw [if_neg how]
      exact hI
  · rw [if_neg hs]
    exact hI

/-! ### Preservation of the invariant: createSpace -/

theorem getD_append_lt_gen {α : Type} (l l2 : List α) (i : Nat) (d : α)
    (h : i < l.length) : (l ++ l2).getD i d = l.getD i d := by
  simp [List.getD_eq_getElem?_getD, List.getElem?_append, h]

theorem mem_concat_iff {l : List Nat} {a i : Nat} :
    i ∈ l ++ [a] ↔ i ∈ l ∨ i = a := by
  simp

theorem nodup_concat_of_lt {l : List Nat} {a : Nat} (hl : l.Nodup)
    (h : ∀ i ∈ l, i < a) : (l ++ [a]).Nodup := by
  rw [List.nodup_append]
  refine ⟨hl, List.nodup_singleton a, ?_⟩
  intro x hx hx'
  rw [List.mem_singleton] at hx'
  subst hx'
  exact Nat.lt_irrefl x (h x hx)

/-- Appending a fresh parentless record preserves the invariant,
provided no parentless space of the same owner already bears the name. -/
theorem storeInv_extend_root (cfg cfg' : Config) (o : User) (n t : String)
    (hsp : cfg'.spaces = cfg.spaces ++ [cfg.heap.length])
    (hlen : cfg'.heap.length = cfg.heap.length + 1)
    (hgN : getS cfg' cfg.heap.length = ⟨o, n, t, none, none⟩)
    (hgOld : ∀ j, j < cfg.heap.length → getS cfg' j = getS cfg j)
    (hI : StoreInv cfg) (hcl : ¬ rootClash cfg o n) :
    StoreInv cfg' := by
  obtain ⟨hA1, hA2, hA3, hA4, hA5, hA6⟩ := hI
  have hkN : kidsOf cfg' cfg.heap.length = [] := by
    unfold kidsOf
    rw [hgN]
    rfl
  have hkOld : ∀ j, j < cfg.heap.length → kidsOf cfg' j = kidsOf cfg j := by
    intro j hj
    unfold kidsOf
    rw [hgOld j hj]
  refine ⟨?_, ?_, ?_, ?_, ?_, ?_⟩
  · intro i hi
    rw [hsp] at hi
    rw [hlen]
    rcases mem_concat_iff.mp hi with h | h
    · exact Nat.lt_succ_of_lt (hA1 i h)
    · subst h
      exact Nat.lt_succ_self _
  · rw [hsp]
    exact nodup_concat_of_lt hA2 hA1
  · intro i hi q hq
    rw [hsp] at hi
    rcases mem_concat_iff.mp hi with h | h
    · rw [hgOld i (hA1 i h)] at hq
      obtain ⟨hq1, hq2⟩ := hA3 i h q hq
      refine ⟨by rw [hlen]; exact Nat.lt_succ_of_lt hq1, ?_⟩
      rw [hkOld q hq1]
      exact hq2
    · subst h
      rw [hgN] at hq
      exact Option.noConfusion hq
  · intro q hq c hc
    rw [hlen] at hq
    by_cases hqN : q = cfg.heap.length
    · subst hqN
      rw [hkN] at hc
      exact absurd hc (List.not_mem_nil c)
    · have hq' : q < cfg.heap.length := Nat.lt_of_le_of_ne (Nat.le_of_lt_succ hq) hqN
      rw [hkOld q hq'] at hc
      obtain ⟨h1, h2⟩ := hA4 q hq' c hc
      refine ⟨by rw [hsp]; exact mem_concat_iff.mpr (Or.inl h1), ?_⟩
      rw [hgOld c (hA1 c h1)]
      exact h2
  · intro q hq
    rw [hlen] at hq
    by_cases hqN : q = cfg.heap.length
    · subst hqN
      rw [hkN]
      exact List.nodup_nil
    · have hq' : q < cfg.heap.length := Nat.lt_of_le_of_ne (Nat.le_of_lt_succ hq) hqN
      rw [hkOld q hq']
      have hmap : (kidsOf cfg q).map (fun c => (getS cfg' c).name)
          = (kidsOf cfg q).map (fun c => (getS cfg c).name) :=
        List.map_congr_left (fun c hc => by
          rw [hgOld c (hA1 c (hA4 q hq' c hc).1)])
      rw [hmap]
      exact hA5 q hq'
  · intro i hi j hj hij hpi hpj how
    rw [hsp] at hi hj
    rcases mem_concat_iff.mp hi with h | h
    · rcases mem_concat_iff.mp hj with h' | h'
      · rw [hgOld i (hA1 i h)] at hpi how ⊢
        rw [hgOld j (hA1 j h')] at hpj how ⊢
        exact hA6 i h j h' hij hpi hpj how
      · subst h'
        rw [hgOld i (hA1 i h)] at hpi how ⊢
        rw [hgN] at how ⊢
        intro hn
        exact hcl ⟨i, h, hpi, by rw [how], hn⟩
    · subst h
      rcases mem_concat_iff.mp hj with h' | h'
      · rw [hgN] at how ⊢
        rw [hgOld j (hA1 j h')] at hpj how ⊢
        intro hn
        exact hcl ⟨j, h', hpj, by rw [← how], hn.symm⟩
      · subst h'
        exact absurd rfl hij

/-- Appending a fresh record with parent `pid` (and pushing it onto
`pid`'s children cache) preserves the invariant, provided no existing
child of `pid` bears the name. -/
theorem storeInv_extend_child (cfg cfg' : Config) (o : User) (n t : String)
    (pid : Nat) (hpid : pid < cfg.heap.length)
    (hsp : cfg'.spaces = cfg.spaces ++ [cfg.heap.length])
    (hlen : cfg'.heap.length = cfg.heap.length + 1)
    (hgPid : getS cfg' pid
      = { getS cfg pid with children := some (kidsOf cfg pid ++ [cfg.heap.length]) })
    (hgN : getS cfg' cfg.heap.length = ⟨o, n, t, some pid, none⟩)
    (hgOld : ∀ j, j ≠ pid → j < cfg.heap.length → getS cfg' j = getS cfg j)
    (hI : StoreInv cfg)
    (hkn : ∀ c ∈ kidsOf cfg pid, (getS cfg c).name ≠ n) :
    StoreInv cfg' := by
  obtain ⟨hA1, hA2, hA3, hA4, hA5, hA6⟩ := hI
  have hNpid : cfg.heap.length ≠ pid := fun h => Nat.lt_irrefl pid (h ▸ hpid)
  have hkPid : kidsOf cfg' pid = kidsOf cfg pid ++ [cfg.heap.length] := by
    unfold kidsOf
    rw [hgPid]
    rfl
  have hkN : kidsOf cfg' cfg.heap.length = [] := by
    unfold kidsOf
    rw [hgN]
    rfl
  have hkOld : ∀ j, j ≠ pid → j < cfg.heap.length → kidsOf cfg' j = kidsOf cfg j := by
    intro j hj hjlt
    unfold kidsOf
    rw [hgOld j hj hjlt]
  have hparent : ∀ j, j < cfg.heap.length →
      (getS cfg' j).parent = (getS cfg j).parent := by
    intro j hjlt
    by_cases hj : j = pid
    · subst hj
      rw [hgPid]
    · rw [hgOld j hj hjlt]
  have howner : ∀ j, j < cfg.heap.length →
      (getS cfg' j).owner = (getS cfg j).owner := by
    intro j hjlt
    by_cases hj : j = pid
    · subst hj
      rw [hgPid]
    · rw [hgOld j hj hjlt]
  have hname : ∀ j, j < cfg.heap.length →
      (getS cfg' j).name = (getS cfg j).name := by
    intro j hjlt
    by_cases hj : j = pid
    · subst hj
      rw [hgPid]
    · rw [hgOld j hj hjlt]
  refine ⟨?_, ?_, ?_, ?_, ?_, ?_⟩
  · intro i hi
    rw [hsp] at hi
    rw [hlen]
    rcases mem_concat_iff.mp hi with h | h
    · exact Nat.lt_succ_of_lt (hA1 i h)
    · subst h
      exact Nat.lt_succ_self _
  · rw [hsp]
    exact nodup_concat_of_lt hA2 hA1
  · intro i hi q hq
    rw [hsp] at hi
    rcases mem_concat_iff.mp hi with h | h
    · rw [hparent i (hA1 i h)] at hq
      obtain ⟨hq1, hq2⟩ := hA3 i h q hq
      refine ⟨by rw [hlen]; exact Nat.lt_succ_of_lt hq1, ?_⟩
      by_cases hqp : q = pid
      · subst hqp
        rw [hkPid]
        exact mem_concat_iff.mpr (Or.inl hq2)
      · rw [hkOld q hqp hq1]
        exact hq2
    · subst h
      have hq' : some pid = some q := by
        rw [hgN] at hq
        exact hq
      cases hq'
      refine ⟨by rw [hlen]; exact Nat.lt_succ_of_lt hpid, ?_⟩
      rw [hkPid]
      exact mem_concat_iff.mpr (Or.inr rfl)
  · intro q hq c hc
    rw [hlen] at hq
    by_cases hqp : q = pid
    · subst hqp
      rw [hkPid] at hc
      rcases mem_concat_iff.mp hc with h | h
      · obtain ⟨h1, h2⟩ := hA4 q hpid c h
        refine ⟨by rw [hsp]; exact mem_concat_iff.mpr (Or.inl h1), ?_⟩
        rw [hparent c (hA1 c h1)]
        exact h2
      · subst h
        refine ⟨by rw [hsp]; exact mem_concat_iff.mpr (Or.inr rfl), ?_⟩
        rw [hgN]
    · by_cases hqN : q = cfg.heap.length
      · subst hqN
        rw [hkN] at hc
        exact absurd hc (List.not_mem_nil c)
      · have hq' : q < cfg.heap.length := Nat.lt_of_le_of_ne (Nat.le_of_lt_succ hq) hqN
        rw [hkOld q hqp hq'] at hc
        obtain ⟨h1, h2⟩ := hA4 q hq' c hc
        refine ⟨by rw [hsp]; exact mem_concat_iff.mpr (Or.inl h1), ?_⟩
        rw [hparent c (hA1 c h1)]
        exact h2
  · intro q hq
    rw [hlen] at hq
    by_cases hqp : q = pid
    · subst hqp
      rw [hkPid, List.map_append]
      have hmap : (kidsOf cfg q).map (fun c => (getS cfg' c).name)
          = (kidsOf cfg q).map (fun c => (getS cfg c).name) :=
        List.map_congr_left (fun c hc => hname c (hA1 c (hA4 q hpid c hc).1))
      rw [hmap]
      rw [List.nodup_append]
      refine ⟨hA5 q hpid, ?_, ?_⟩
      · simp only [List.map_cons, List.map_nil]
        rw [hgN]
        exact List.nodup_singleton _
      · intro x hx hx'
        simp only [List.map_cons, List.map_nil] at hx'
        rw [hgN] at hx'
        rw [List.mem_singleton] at hx'
        obtain ⟨c, hc, hcn⟩ := List.mem_map.mp hx
        subst hx'
        exact hkn c hc hcn
    · by_cases hqN : q = cfg.heap.length
      · subst hqN
        rw [hkN]
        exact List.nodup_nil
      · have hq' : q < cfg.heap.length := Nat.lt_of_le_of_ne (Nat.le_of_lt_succ hq) hqN
        rw [hkOld q hqp hq']
        have hmap : (kidsOf cfg q).map (fun c => (getS cfg' c).name)
            = (kidsOf cfg q).map (fun c => (getS cfg c).name) :=
          List.map_congr_left (fun c hc => hname c (hA1 c (hA4 q hq' c hc).1))
        rw [hmap]
        exact hA5 q hq'
  · intro i hi j hj hij hpi hpj how
    rw [hsp] at hi hj
    rcases mem_concat_iff.mp hi with h | h
    · rcases mem_concat_iff.mp hj with h' | h'
      · rw [hparent i (hA1 i h)] at hpi
        rw [hparent j (hA1 j h')] at hpj
        rw [howner i (hA1 i h), howner j (hA1 j h')] at how
        rw [hname i (hA1 i h), hname j (hA1 j h')]
        exact hA6 i h j h' hij hpi hpj how
      · subst h'
        have : some pid = none := by
          rw [hgN] at hpj
          exact hpj
        exact Option.noConfusion this
    · subst h
      have : some pid = none := by
        rw [hgN] at hpi
        exact hpi
      exact Option.noConfusion this

theorem storeInv_pushNew_root (cfg : Config) (o : User) (n t : String)
    (hI : StoreInv cfg) (hcl : ¬ rootClash cfg o n) :
    StoreInv (pushNew cfg o n t none).1 := by
  unfold pushNew
  dsimp only
  refine storeInv_extend_root cfg _ o n t rfl ?_ ?_ ?_ hI hcl
  · simp
  · exact getS_append_len
  · intro j hj
    exact getS_append_lt hj

theorem storeInv_pushNew_child (cfg : Config) (o : User) (n t : String)
    (pid : Nat) (hpid : pid < cfg.heap.length) (hI : StoreInv cfg)
    (hkn : ∀ c ∈ kidsOf cfg pid, (getS cfg c).name ≠ n) :
    StoreInv (pushNew cfg o n t (some pid)).1 := by
  unfold pushNew
  dsimp only
  rw [show (cfg.heap ++ [(⟨o, n, t, some pid, none⟩ : SpaceData)]).getD pid default
      = getS cfg pid from getD_append_lt_gen _ _ _ _ hpid]
  have hpid1 : pid < (cfg.heap ++ [(⟨o, n, t, some pid, none⟩ : SpaceData)]).length := by
    simp only [List.length_append, List.length_singleton]
    exact Nat.lt_succ_of_lt hpid
  have hNpid : pid ≠ cfg.heap.length := Nat.ne_of_lt hpid
  refine storeInv_extend_child cfg _ o n t pid hpid rfl ?_ ?_ ?_ ?_ hI hkn
  · simp
  · exact getS_set_eq hpid1
  · rw [getS_set_ne hNpid]
    exact getS_append_len
  · intro j hj hjlt
    rw [getS_set_ne fun h => hj h.symm]
    exact getS_append_lt hjlt

theorem storeInv_createSpace (cfg : Config) (o : User) (n t : String)
    (parent : Option Nat)
    (hp : ∀ pid, parent = some pid → pid < cfg.heap.length)
    (hI : StoreInv cfg) : StoreInv (createSpace cfg o n t parent).1 := by
  unfold createSpace
  cases parent with
  | none =>
    dsimp only
    by_cases hcl : rootClash cfg o n
    · rw [if_pos hcl]
      exact hI
    · rw [if_neg hcl]
      exact storeInv_pushNew_root cfg o n t hI hcl
  | some pid =>
    dsimp only
    have hpid := hp pid rfl
    cases hk : (getS cfg pid).children with
    | some kids =>
      dsimp only
      by_cases hcl : childClash cfg kids n
      · rw [if_pos hcl]
        exact hI
      · rw [if_neg hcl]
        apply storeInv_pushNew_child cfg o n t pid hpid hI
        intro c hc
        rw [show kidsOf cfg pid = kids from by unfold kidsOf; rw [hk]; rfl] at hc
        exact fun hn => hcl ⟨c, hc, hn⟩
    | none =>
      dsimp only
      by_cases hcl : rootClash cfg o n
      · rw [if_pos hcl]
        exact hI
      · rw [if_neg hcl]
        apply storeInv_pushNew_child cfg o n t pid hpid hI
        intro c hc
        rw [show kidsOf cfg pid = [] from by unfold kidsOf; rw [hk]; rfl] at hc
        exact absurd hc (List.not_mem_nil c)

/-! ### Preservation of the invariant: moveSpace -/

theorem storeInv_move_core (cfg cfg1 : Config) (s np : Nat) (hI : StoreInv cfg)
    (hs : s ∈ cfg.spaces) (hnp : np ∈ cfg.spaces)
    (hcl : ¬ childClash cfg (kidsOf cfg np) (getS cfg s).name)
    (hcase : ((getS cfg s).parent = none ∧ cfg1 = cfg) ∨
      (∃ op, (getS cfg s).parent = some op ∧ cfg1 = detachChild cfg op s)) :
    StoreInv (setParent (attachChild cfg1 np s) s (some np)) := by
  obtain ⟨hA1, hA2, hA3, hA4, hA5, hA6⟩ := hI
  have hslen : s < cfg.heap.length := hA1 s hs
  have hnplen : np < cfg.heap.length := hA1 np hnp
  have hsnotkid : s ∉ kidsOf cfg np := fun h => hcl ⟨s, h, rfl⟩
  have hsp1 : cfg1.spaces = cfg.spaces := by
    rcases hcase with ⟨_, rfl⟩ | ⟨op, _, h1⟩
    · rfl
    · rw [h1]
      exact detachChild_spaces cfg op s
  have hlen1 : cfg1.heap.length = cfg.heap.length := by
    rcases hcase with ⟨_, rfl⟩ | ⟨op, _, h1⟩
    · rfl
    · rw [h1]
      exact detachChild_heap_length cfg op s
  have hg1par : ∀ j, (getS cfg1 j).parent = (getS cfg j).parent := by
    intro j
    rcases hcase with ⟨_, rfl⟩ | ⟨op, _, h1⟩
    · rfl
    · rw [h1]
      exact parent_detachChild cfg op s j
  have hg1own : ∀ j, (getS cfg1 j).owner = (getS cfg j).owner := by
    intro j
    rcases hcase with ⟨_, rfl⟩ | ⟨op, _, h1⟩
    · rfl
    · rw [h1]
      exact owner_detachChild cfg op s j
  have hg1name : ∀ j, (getS cfg1 j).name = (getS cfg j).name := by
    intro j
    rcases hcase with ⟨_, rfl⟩ | ⟨op, _, h1⟩
    · rfl
    · rw [h1]
      exact name_detachChild cfg op s j
  have hk1np : kidsOf cfg1 np = kidsOf cfg np := by
    rcases hcase with ⟨_, rfl⟩ | ⟨op, hps, h1⟩
    · rfl
    · have hopkid := hA3 s hs op hps
      have hopnp : op ≠ np := fun h => hsnotkid (h ▸ hopkid.2)
      rw [h1, kidsOf_detachChild, if_neg (fun hh => hopnp hh.1.symm)]
  have hsp3 : (setParent (attachChild cfg1 np s) s (some np)).spaces = cfg.spaces := by
    rw [setParent_spaces, attachChild_spaces, hsp1]
  have hlen3 : (setParent (attachChild cfg1 np s) s (some np)).heap.length
      = cfg.heap.length := by
    rw [setParent_heap_length, attachChild_heap_length, hlen1]
  have hslen2 : s < (attachChild cfg1 np s).heap.length := by
    rw [attachChild_heap_length, hlen1]
    exact hslen
  have hpar3s : (getS (setParent (attachChild cfg1 np s) s (some np)) s).parent
      = some np := by
    rw [parent_setParent, if_pos ⟨rfl, hslen2⟩]
  have hpar3 : ∀ j, j ≠ s →
      (getS (setParent (attachChild cfg1 np s) s (some np)) j).parent
        = (getS cfg j).parent := by
    intro j hj
    rw [parent_setParent, if_neg (fun hh => hj hh.1), parent_attachChild, hg1par]
  have hown3 : ∀ j,
      (getS (setParent (attachChild cfg1 np s) s (some np)) j).owner
        = (getS cfg j).owner := by
    intro j
    rw [owner_setParent, owner_attachChild, hg1own]
  have hname3 : ∀ j,
      (getS (setParent (attachChild cfg1 np s) s (some np)) j).name
        = (getS cfg j).name := by
    intro j
    rw [name_setParent, name_attachChild, hg1name]
  have hnplen1 : np < cfg1.heap.length := by
    rw [hlen1]
    exact hnplen
  have hknp3 : kidsOf (setParent (attachChild cfg1 np s) s (some np)) np
      = kidsOf cfg np ++ [s] := by
    rw [kidsOf_setParent, kidsOf_attachChild, if_pos ⟨rfl, hnplen1⟩, hk1np]
  have hkother3 : ∀ j, j ≠ np →
      kidsOf (setParent (attachChild cfg1 np s) s (some np)) j = kidsOf cfg1 j := by
    intro j hj
    rw [kidsOf_setParent, kidsOf_attachChild, if_neg (fun hh => hj hh.1)]
  refine ⟨?_, ?_, ?_, ?_, ?_, ?_⟩
  · intro i hi
    rw [hsp3] at hi
    rw [hlen3]
    exact hA1 i hi
  · rw [hsp3]
    exact hA2
  · intro i hi q hq
    rw [hsp3] at hi
    by_cases his : i = s
    · subst his
      have hq' : some np = some q := by
        rw [hpar3s] at hq
        exact hq
      cases hq'
      refine ⟨by rw [hlen3]; exact hnplen, ?_⟩
      rw [hknp3]
      exact mem_concat_iff.mpr (Or.inr rfl)
    · rw [hpar3 i his] at hq
      obtain ⟨hq1, hq2⟩ := hA3 i hi q hq
      refine ⟨by rw [hlen3]; exact hq1, ?_⟩
      by_cases hqnp : q = np
      · subst hqnp
        rw [hknp3]
        exact mem_concat_iff.mpr (Or.inl hq2)
      · rw [hkother3 q hqnp]
        rcases hcase with ⟨hps, rfl⟩ | ⟨op, hps, h1⟩
        · exact hq2
        · subst h1
          rw [kidsOf_detachChild]
          by_cases hqop : q = op
          · subst hqop
            rw [if_pos ⟨rfl, hq1⟩]
            exact mem_filter_ne.mpr ⟨hq2, his⟩
          · rw [if_neg (fun hh => hqop hh.1)]
            exact hq2
  · intro q hq c hc
    rw [hlen3] at hq
    by_cases hqnp : q = np
    · subst hqnp
      rw [hknp3] at hc
      rcases mem_concat_iff.mp hc with h | h
      · obtain ⟨h1, h2⟩ := hA4 q hnplen c h
        have hcs : c ≠ s := fun e => hsnotkid (e ▸ h)
        refine ⟨by rw [hsp3]; exact h1, ?_⟩
        rw [hpar3 c hcs]
        exact h2
      · subst h
        refine ⟨by rw [hsp3]; exact hs, hpar3s⟩
    · rw [hkother3 q hqnp] at hc
      rcases hcase with ⟨hps, rfl⟩ | ⟨op, hps, h1⟩
      · obtain ⟨h1, h2⟩ := hA4 q hq c hc
        have hcs : c ≠ s := by
          intro e
          subst e
          rw [h2] at hps
          exact Option.noConfusion hps
        refine ⟨by rw [hsp3]; exact h1, ?_⟩
        rw [hpar3 c hcs]
        exact h2
      · subst h1
        rw [kidsOf_detachChild] at hc
        by_cases hqop : q = op
        · subst hqop
          rw [if_pos ⟨rfl, hq⟩] at hc
          obtain ⟨hck, hcs⟩ := mem_filter_ne.mp hc
          obtain ⟨h1, h2⟩ := hA4 q hq c hck
          refine ⟨by rw [hsp3]; exact h1, ?_⟩
          rw [hpar3 c hcs]
          exact h2
        · rw [if_neg (fun hh => hqop hh.1)] at hc
          obtain ⟨h1, h2⟩ := hA4 q hq c hc
          have hcs : c ≠ s := by
            intro e
            subst e
            rw [h2] at hps
            exact hqop (Option.some.inj hps)
          refine ⟨by rw [hsp3]; exact h1, ?_⟩
          rw [hpar3 c hcs]
          exact h2
  · intro q hq
    rw [hlen3] at hq
    have hnamemap : ∀ l : List Nat,
        l.map (fun c => (getS (setParent (attachChild cfg1 np s) s (some np)) c).name)
          = l.map (fun c => (getS cfg c).name) :=
      fun l => List.map_congr_left (fun c _ => hname3 c)
    by_cases hqnp : q = np
    · subst hqnp
      rw [hknp3, hnamemap, List.map_append]
      rw [List.nodup_append]
      refine ⟨hA5 q hq, ?_, ?_⟩
      · exact List.nodup_singleton _
      · intro x hx hx'
        simp only [List.map_cons, List.map_nil, List.mem_singleton] at hx'
        subst hx'
        obtain ⟨c, hc, hcn⟩ := List.mem_map.mp hx
        exact hcl ⟨c, hc, hcn⟩
    · rw [hkother3 q hqnp]
      rcases hcase with ⟨hps, rfl⟩ | ⟨op, hps, h1⟩
      · rw [hnamemap]
        exact hA5 q hq
      · subst h1
        rw [kidsOf_detachChild]
        by_cases hqop : q = op
        · subst hqop
          rw [if_pos ⟨rfl, hq⟩, hnamemap]
          exact List.Nodup.sublist
            (List.Sublist.map _ (List.filter_sublist _)) (hA5 q hq)
        · rw [if_neg (fun hh => hqop hh.1), hnamemap]
          exact hA5 q hq
  · intro i hi j hj hij hpi hpj how
    rw [hsp3] at hi hj
    have his : i ≠ s := by
      intro e
      subst e
      rw [hpar3s] at hpi
      exact Option.noConfusion hpi
    have hjs : j ≠ s := by
      intro e
      subst e
      rw [hpar3s] at hpj
      exact Option.noConfusion hpj
    rw [hpar3 i his] at hpi
    rw [hpar3 j hjs] at hpj
    rw [hown3 i, hown3 j] at how
    rw [hname3 i, hname3 j]
    exact hA6 i hi j hj hij hpi hpj how

theorem storeInv_moveSpace (cfg : Config) (o : User) (s np : Nat)
    (hI : StoreInv cfg) : StoreInv (moveSpace cfg o s np).1 := by
  unfold moveSpace
  by_cases hmem : s ∈ cfg.spaces ∧ np ∈ cfg.spaces
  · rw [if_pos hmem]
    by_cases how : (getS cfg s).owner.username = o.username ∧
        (getS cfg np).owner.username = o.username
    · rw [if_pos how]
      by_cases hcl : childClash cfg ((getS cfg np).children.getD []) (getS cfg s).name
      · rw [if_pos hcl]
        exact hI
      · rw [if_neg hcl]
        dsimp only
        cases hps : (getS cfg s).parent with
        | none =>
          dsimp only
          exact storeInv_move_core cfg cfg s np hI hmem.1 hmem.2 hcl
            (Or.inl ⟨hps, rfl⟩)
        | some op =>
          dsimp only
          exact storeInv_move_core cfg (detachChild cfg op s) s np hI hmem.1 hmem.2
            hcl (Or.inr ⟨op, hps, rfl⟩)
    · rw [if_neg how]
      exact hI
  · rw [if_neg hmem]
    exact hI

/-- Every reachable store satisfies the invariant. -/
theorem reachable_storeInv {cfg : Config} (h : Reachable cfg) : StoreInv cfg := by
  induction h with
  | empty => exact storeInv_empty
  | step _ hstep ih =>
    cases hstep with
    | create o n t parent hp => exact storeInv_createSpace _ o n t parent hp ih
    | move o s np => exact storeInv_moveSpace _ o s np ih
    | rename o s n => exact storeInv_renameSpace _ o s n ih
    | delete o s => exact storeInv_deleteSpace _ o s ih

/-! ### Failure characterisation: a failing call never mutates -/

theorem pushNew_ok (cfg : Config) (o : User) (n t : String) (parent : Option Nat) :
    (pushNew cfg o n t parent).2 = .ok cfg.heap.length := by
  unfold pushNew
  cases parent <;> rfl

theorem createSpace_fail_unchanged (cfg : Config) (o : User) (n t : String)
    (parent : Option Nat) (e : SpaceError)
    (he : (createSpace cfg o n t parent).2 = .error e) :
    (createSpace cfg o n t parent).1 = cfg ∧ e = .NameConflict := by
  unfold createSpace at he ⊢
  cases parent with
  | none =>
    dsimp only at he ⊢
    by_cases hcl : rootClash cfg o n
    · rw [if_pos hcl] at he ⊢
      exact ⟨rfl, (Except.error.inj he).symm⟩
    · rw [if_neg hcl] at he
      rw [pushNew_ok] at he
      exact Except.noConfusion he
  | some pid =>
    dsimp only at he ⊢
    cases hk : (getS cfg pid).children with
    | some kids =>
      rw [hk] at he
      dsimp only at he ⊢
      by_cases hcl : childClash cfg kids n
      · rw [if_pos hcl] at he ⊢
        exact ⟨rfl, (Except.error.inj he).symm⟩
      · rw [if_neg hcl] at he
        rw [pushNew_ok] at he
        exact Except.noConfusion he
    | none =>
      rw [hk] at he
      dsimp only at he ⊢
      by_cases hcl : rootClash cfg o n
      · rw [if_pos hcl] at he ⊢
        exact ⟨rfl, (Except.error.inj he).symm⟩
      · rw [if_neg hcl] at he
        rw [pushNew_ok] at he
        exact Except.noConfusion he

theorem moveSpace_fail_unchanged (cfg : Config) (o : User) (s np : Nat)
    (e : SpaceError) (he : (moveSpace cfg o s np).2 = .error e) :
    (moveSpace cfg o s np).1 = cfg := by
  unfold moveSpace at he ⊢
  by_cases hmem : s ∈ cfg.spaces ∧ np ∈ cfg.spaces
  · rw [if_pos hmem] at he ⊢
    by_cases how : (getS cfg s).owner.username = o.username ∧
        (getS cfg np).owner.username = o.username
    · rw [if_pos how] at he ⊢
      by_cases hcl : childClash cfg ((getS cfg np).children.getD []) (getS cfg s).name
      · rw [if_pos hcl]
      · rw [if_neg hcl] at he
        exact Except.noConfusion he
    · rw [if_neg how]
  · rw [if_neg hmem]

theorem renameSpace_fail_unchanged (cfg : Config) (o : User) (s : Nat) (n : String)
    (e : SpaceError) (he : (renameSpace cfg o s n).2 = .error e) :
    (renameSpace cfg o s n).1 = cfg := by
  unfold renameSpace at he ⊢
  by_cases hs : s ∈ cfg.spaces
  · rw [if_pos hs] at he ⊢
    by_cases how : (getS cfg s).owner.username = o.username
    · rw [if_pos how] at he ⊢
      cases hp : (getS cfg s).parent with
      | some p =>
        rw [hp] at he
        dsimp only at he ⊢
        cases hk : (getS cfg p).children with
        | some kids =>
          rw [hk] at he
          dsimp only at he ⊢
          by_cases hcl : childClash cfg kids n
          · rw [if_pos hcl]
          · rw [if_neg hcl] at he
            exact Except.noConfusion he
        | none =>
          rw [hk] at he
          dsimp only at he ⊢
          by_cases hcl : rootClash cfg o n
          · rw [if_pos hcl]
          · rw [if_neg hcl] at he
            exact Except.noConfusion he
      | none =>
        rw [hp] at he
        dsimp only at he ⊢
        by_cases hcl : rootClash cfg o n
        · rw [if_pos hcl]
        · rw [if_neg hcl] at he
          exact Except.noConfusion he
    · rw [if_neg how]
  · rw [if_neg hs]

theorem deleteSpace_fail_unchanged (cfg : Config) (o : User) (s : Nat)
    (e : SpaceError) (he : (deleteSpace cfg o s).2 = .error e) :
    (deleteSpace cfg o s).1 = cfg := by
  unfold deleteSpace at he ⊢
  by_cases hs : s ∈ cfg.spaces
  · rw [if_pos hs] at he ⊢
    by_cases how : (getS cfg s).owner.username = o.username
    · rw [if_pos how] at he ⊢
      by_cases hne : 0 < ((getS cfg s).children.getD []).length
      · rw [if_pos hne]
      · rw [if_neg hne] at he
        exact Except.noConfusion he
    · rw [if_neg how]
  · rw [if_neg hs]

/-! ### Reachability of the demonstration stores -/

theorem reachable_cfgOneRoot : Reachable cfgOneRoot :=
  .step .empty (Step.create emptyConfig alice "a" "t" none
    (fun _ h => Option.noConfusion h))

theorem reachable_cfgTwoRoots : Reachable cfgTwoRoots :=
  .step (.step .empty (Step.create emptyConfig alice "x" "t" none
      (fun _ h => Option.noConfusion h)))
    (Step.create (createSpace emptyConfig alice "x" "t" none).1 alice "P" "t" none
      (fun _ h => Option.noConfusion h))

theorem reachable_cfgParentChild : Reachable cfgParentChild :=
  .step reachable_cfgOneRoot (Step.create cfgOneRoot alice "b" "t" (some 0)
    (fun pid h => by cases h; decide))

theorem reachable_cfgCycle : Reachable cfgCycle :=
  .step reachable_cfgParentChild (Step.move cfgParentChild alice 0 1)

theorem reachable_cfgDresser : Reachable cfgDresser :=
  .step (.step (.step .empty (Step.create emptyConfig alice "dresser" "cabinet"
        none (fun _ h => Option.noConfusion h)))
      (Step.create (createSpace emptyConfig alice "dresser" "cabinet" none).1
        alice "shelf" "shelf" none (fun _ h => Option.noConfusion h)))
    (Step.create (createSpace (createSpace emptyConfig alice "dresser" "cabinet"
        none).1 alice "shelf" "shelf" none).1 alice "drawer 1" "drawer" (some 0)
      (fun pid h => by cases h; decide))

/-- Characterisation of a successful `moveSpace`: all three checks passed
and the store is the detach/attach/repoint update of the input store. -/
theorem moveSpace_ok_state (cfg : Config) (o : User) (s np : Nat)
    (hok : (moveSpace cfg o s np).2 = .ok ()) :
    s ∈ cfg.spaces ∧ np ∈ cfg.spaces ∧
    (getS cfg s).owner.username = o.username ∧
    (getS cfg np).owner.username = o.username ∧
    ¬ childClash cfg (kidsOf cfg np) (getS cfg s).name ∧
    (moveSpace cfg o s np).1
      = setParent (attachChild (match (getS cfg s).parent with
          | some op => detachChild cfg op s
          | none => cfg) np s) s (some np) := by
  unfold moveSpace at hok ⊢
  by_cases hmem : s ∈ cfg.spaces ∧ np ∈ cfg.spaces
  · rw [if_pos hmem] at hok ⊢
    by_cases how : (getS cfg s).owner.username = o.username ∧
        (getS cfg np).owner.username = o.username
    · rw [if_pos how] at hok ⊢
      by_cases hcl : childClash cfg ((getS cfg np).children.getD []) (getS cfg s).name
      · rw [if_pos hcl] at hok
        exact Except.noConfusion hok
      · rw [if_neg hcl]
        exact ⟨hmem.1, hmem.2, how.1, how.2, hcl, rfl⟩
    · rw [if_neg how] at hok
      exact Except.noConfusion hok
  · rw [if_neg hmem] at hok
    exact Except.noConfusion hok

/-! ### The claims -/

/-- C1 (amended): renaming a Space in the collection, by its owner, to its
own current name always fails with NameConflict and leaves the store
unchanged — the sibling-collision check does not exclude the space
itself, so the space collides with its own name. -/
theorem C1_rename_to_self_fails (cfg : Config) (o : User) (s : Nat)
    (hI : StoreInv cfg) (hs : s ∈ cfg.spaces)
    (how : (getS cfg s).owner.username = o.username) :
    renameSpace cfg o s ((getS cfg s).name) = (cfg, .error .NameConflict) := by
  unfold renameSpace
  rw [if_pos hs, if_pos how]
  cases hp : (getS cfg s).parent with
  | some p =>
    dsimp only
    obtain ⟨hplen, hskid⟩ := hI.2.2.1 s hs p hp
    cases hk : (getS cfg p).children with
    | none => exact absurd hskid (by simp [kidsOf, hk])
    | some kids =>
      dsimp only
      have hskids : s ∈ kids := by
        have h := hskid
        unfold kidsOf at h
        rw [hk] at h
        exact h
      rw [if_pos ⟨s, hskids, rfl⟩]
  | none =>
    dsimp only
    rw [if_pos ⟨s, hs, hp, how, rfl⟩]

/-- C1 counterexample: the claim as stated — renaming to the current name
succeeds — is false: on the store with the single root "a" owned by
alice, renaming "a" to "a" reports NameConflict instead of succeeding. -/
theorem C1_counterexample :
    0 ∈ cfgOneRoot.spaces ∧ (getS cfgOneRoot 0).owner = alice ∧
    (getS cfgOneRoot 0).name = "a" ∧
    (renameSpace cfgOneRoot alice 0 "a").2 = Except.error SpaceError.NameConflict :=
  ⟨by decide, rfl, rfl, rfl⟩

/-- C1 witness: the amended statement instantiated on the two-root store. -/
theorem C1_witness :
    renameSpace cfgTwoRoots alice 1 ((getS cfgTwoRoots 1).name)
      = (cfgTwoRoots, .error .NameConflict) :=
  C1_rename_to_self_fails cfgTwoRoots alice 1 (by decide) (by decide) (by decide)

/-- C2 (amended): the createSpace uniqueness check is performed against
the parent's children exactly when the parent's children cache is
initialised (`some kids`); when the parent is given but its cache is
still uninitialised (`none`) — or when no parent is given — the check is
performed against the owner's parentless spaces instead.  Any failure is
a NameConflict that leaves the store unchanged.  A parent whose cache is
an initialised empty array accepts any name. -/
theorem C2_create_uniqueness_scope (cfg : Config) (o : User) (n t : String) :
    (∀ pid kids, (getS cfg pid).children = some kids →
      ((∃ id, (createSpace cfg o n t (some pid)).2 = .ok id) ↔
        ¬ childClash cfg kids n)) ∧
    (∀ pid, (getS cfg pid).children = none →
      ((∃ id, (createSpace cfg o n t (some pid)).2 = .ok id) ↔
        ¬ rootClash cfg o n)) ∧
    ((∃ id, (createSpace cfg o n t none).2 = .ok id) ↔ ¬ rootClash cfg o n) ∧
    (∀ parent e, (createSpace cfg o n t parent).2 = .error e →
      e = .NameConflict ∧ (createSpace cfg o n t parent).1 = cfg) ∧
    (∀ pid, (getS cfg pid).children = some [] →
      ∃ id, (createSpace cfg o n t (some pid)).2 = .ok id) := by
  refine ⟨?_, ?_, ?_, ?_, ?_⟩
  · intro pid kids hk
    unfold createSpace
    dsimp only
    rw [hk]
    dsimp only
    by_cases hcl : childClash cfg kids n
    · rw [if_pos hcl]
      simp [hcl]
    · rw [if_neg hcl]
      simp [pushNew_ok, hcl]
  · intro pid hk
    unfold createSpace
    dsimp only
    rw [hk]
    dsimp only
    by_cases hcl : rootClash cfg o n
    · rw [if_pos hcl]
      simp [hcl]
    · rw [if_neg hcl]
      simp [pushNew_ok, hcl]
  · unfold createSpace
    dsimp only
    by_cases hcl : rootClash cfg o n
    · rw [if_pos hcl]
      simp [hcl]
    · rw [if_neg hcl]
      simp [pushNew_ok, hcl]
  · intro parent e he
    obtain ⟨h1, h2⟩ := createSpace_fail_unchanged cfg o n t parent e he
    exact ⟨h2, h1⟩
  · intro pid hk
    unfold createSpace
    dsimp only
    rw [hk]
    dsimp only
    rw [if_neg (fun hcl => by
      obtain ⟨c, hc, _⟩ := hcl
      exact absurd hc (List.not_mem_nil c))]
    exact ⟨cfg.heap.length, pushNew_ok cfg o n t (some pid)⟩

/-- C2 counterexample: alice has a parentless "x" and a parentless "P";
"P" was given as parent and currently has no children, yet creating "x"
under "P" fails with NameConflict (the claim says it must succeed). -/
theorem C2_counterexample :
    (getS cfgTwoRoots 1).children = none ∧
    (createSpace cfgTwoRoots alice "x" "t" (some 1)).2
      = Except.error SpaceError.NameConflict ∧
    (createSpace cfgTwoRoots alice "x" "t" (some 1)).1 = cfgTwoRoots :=
  ⟨rfl, rfl, rfl⟩

/-- C2 witness: the amended statement instantiated — the uninitialised
cache rejects "x" under "P", while an initialised-empty cache accepts a
name that clashes with a parentless space. -/
theorem C2_witness :
    (¬ ∃ id, (createSpace cfgTwoRoots alice "x" "t" (some 1)).2 = .ok id) ∧
    (∃ id, (createSpace cfgEmptiedParent alice "a" "t" (some 0)).2 = .ok id) := by
  have h1 := (C2_create_uniqueness_scope cfgTwoRoots alice "x" "t").2.1 1 rfl
  have h2 := (C2_create_uniqueness_scope cfgEmptiedParent alice "a" "t").2.2.2.2 0 rfl
  exact ⟨fun hok => (h1.mp hok) (by decide), h2⟩

/-- C3: the claim says a move of a space under itself or one of its
descendants must fail and that the parent relation stays acyclic in every
reachable store.  The code has no such guard: from the empty store,
create root "a", create "b" under "a", then move "a" under "b" — the
call succeeds and afterwards "a" and "b" are each other's parents, a
reachable two-cycle in one owner's spaces. -/
theorem C3_cycle_code_bug :
    Reachable cfgCycle ∧
    (moveSpace cfgParentChild alice 0 1).2 = Except.ok () ∧
    0 ∈ cfgCycle.spaces ∧ 1 ∈ cfgCycle.spaces ∧
    (getS cfgCycle 0).owner = alice ∧ (getS cfgCycle 1).owner = alice ∧
    (getS cfgCycle 0).parent = some 1 ∧
    (getS cfgCycle 1).parent = some 0 :=
  ⟨reachable_cfgCycle, rfl, by decide, by decide, rfl, rfl, rfl, rfl⟩

/-- C4: whenever any of the four operations reports a failure, the
returned store is exactly the input store — no partial mutation on any
failure path (every check precedes every write). -/
theorem C4_failure_no_mutation (cfg : Config) (o : User) (n t nn : String)
    (parent : Option Nat) (s np : Nat) :
    (∀ e, (createSpace cfg o n t parent).2 = .error e →
      (createSpace cfg o n t parent).1 = cfg) ∧
    (∀ e, (moveSpace cfg o s np).2 = .error e → (moveSpace cfg o s np).1 = cfg) ∧
    (∀ e, (renameSpace cfg o s nn).2 = .error e →
      (renameSpace cfg o s nn).1 = cfg) ∧
    (∀ e, (deleteSpace cfg o s).2 = .error e → (deleteSpace cfg o s).1 = cfg) :=
  ⟨fun e he => (createSpace_fail_unchanged cfg o n t parent e he).1,
   fun e he => moveSpace_fail_unchanged cfg o s np e he,
   fun e he => renameSpace_fail_unchanged cfg o s nn e he,
   fun e he => deleteSpace_fail_unchanged cfg o s e he⟩

/-- C4 witness: four concrete failing calls, each leaving the store
untouched. -/
theorem C4_witness :
    (createSpace cfgOneRoot alice "a" "t" none).1 = cfgOneRoot ∧
    (moveSpace cfgOneRoot alice 5 0).1 = cfgOneRoot ∧
    (renameSpace cfgOneRoot alice 5 "z").1 = cfgOneRoot ∧
    (deleteSpace cfgOneRoot alice 5).1 = cfgOneRoot := by
  have h := C4_failure_no_mutation cfgOneRoot alice "a" "t" "z" none 5 0
  exact ⟨h.1 SpaceError.NameConflict rfl, h.2.1 SpaceError.NotFound rfl,
    h.2.2.1 SpaceError.NotFound rfl, h.2.2.2 SpaceError.NotFound rfl⟩

/-- C5: sibling uniqueness is an invariant — in every store reachable by
any call sequence from the empty store, two distinct member spaces with
the same owner and the same parent (including both parentless) have
different names. -/
theorem C5_sibling_uniqueness (cfg : Config) (h : Reachable cfg)
    (i : Nat) (hi : i ∈ cfg.spaces) (j : Nat) (hj : j ∈ cfg.spaces) (hij : i ≠ j)
    (hown : (getS cfg i).owner = (getS cfg j).owner)
    (hpar : (getS cfg i).parent = (getS cfg j).parent) :
    (getS cfg i).name ≠ (getS cfg j).name := by
  obtain ⟨hA1, hA2, hA3, hA4, hA5, hA6⟩ := reachable_storeInv h
  cases hp : (getS cfg i).parent with
  | none =>
    have hpj : (getS cfg j).parent = none := by rw [← hpar, hp]
    exact hA6 i hi j hj hij hp hpj (congrArg User.username hown)
  | some p =>
    have hpj : (getS cfg j).parent = some p := by rw [← hpar, hp]
    obtain ⟨hplen, hik⟩ := hA3 i hi p hp
    obtain ⟨_, hjk⟩ := hA3 j hj p hpj
    intro hname
    exact hij (List.inj_on_of_nodup_map (hA5 p hplen) hik hjk hname)

/-- C5 witness: the two parentless spaces of the two-root store indeed
have different names. -/
theorem C5_witness : (getS cfgTwoRoots 0).name ≠ (getS cfgTwoRoots 1).name :=
  C5_sibling_uniqueness cfgTwoRoots reachable_cfgTwoRoots 0 (by decide) 1
    (by decide) (by decide) rfl rfl

/-- C6: deleting a space that has one or more children fails with
NotEmpty and changes nothing; deleting a childless member space owned by
the caller succeeds, filters it out of the backing collection, and
filters it out of its parent's children cache (when it has a parent). -/
theorem C6_delete_semantics (cfg : Config) (o : User) (s : Nat)
    (hs : s ∈ cfg.spaces) (how : (getS cfg s).owner.username = o.username) :
    (∀ kids, (getS cfg s).children = some kids → kids ≠ [] →
      deleteSpace cfg o s = (cfg, .error .NotEmpty)) ∧
    (((getS cfg s).children = none ∨ (getS cfg s).children = some []) →
      (deleteSpace cfg o s).2 = .ok () ∧
      (deleteSpace cfg o s).1.spaces = cfg.spaces.filter (fun x => x != s) ∧
      s ∉ (deleteSpace cfg o s).1.spaces ∧
      (∀ p, (getS cfg s).parent = some p →
        (getS (deleteSpace cfg o s).1 p).children
          = ((getS cfg p).children).map (fun kids => kids.filter (fun x => x != s)))) := by
  constructor
  · intro kids hk hne
    have hpos : 0 < ((getS cfg s).children.getD []).length := by
      rw [hk]
      exact List.length_pos.mpr hne
    unfold deleteSpace
    rw [if_pos hs, if_pos how, if_pos hpos]
  · intro hch
    have hne : ¬ 0 < ((getS cfg s).children.getD []).length := by
      rcases hch with h | h <;> simp [h]
    have hsp1 : (match (getS cfg s).parent with
        | some p => detachChild cfg p s
        | none => cfg).spaces = cfg.spaces := by
      cases (getS cfg s).parent with
      | some p => exact detachChild_spaces cfg p s
      | none => rfl
    unfold deleteSpace
    rw [if_pos hs, if_pos how, if_neg hne]
    refine ⟨rfl, ?_, ?_, ?_⟩
    · show ((match (getS cfg s).parent with
        | some p => detachChild cfg p s
        | none => cfg).spaces.filter (fun x => x != s)) = _
      rw [hsp1]
    · show s ∉ (match (getS cfg s).parent with
        | some p => detachChild cfg p s
        | none => cfg).spaces.filter (fun x => x != s)
      intro hmem
      exact (mem_filter_ne.mp hmem).2 rfl
    · intro p hp
      rw [hp]
      dsimp only
      show (getS (detachChild cfg p s) p).children = _
      cases hk : (getS cfg p).children with
      | none =>
        have : detachChild cfg p s = cfg := by
          unfold detachChild
          rw [hk]
        rw [this, hk]
        rfl
      | some kids =>
        have hplen : p < cfg.heap.length := by
          by_contra hnp
          have hd : getS cfg p = default := by
            unfold getS
            exact List.getD_eq_default _ _ (Nat.le_of_not_lt hnp)
          rw [hd] at hk
          exact Option.noConfusion hk
        rw [getS_detachChild_self cfg s hplen, hk]
        rfl

/-- C6 witness: on the parent/child store, deleting the parent fails
with NotEmpty, deleting the child succeeds and cleans up. -/
theorem C6_witness :
    deleteSpace cfgParentChild alice 0 = (cfgParentChild, .error .NotEmpty) ∧
    (deleteSpace cfgParentChild alice 1).2 = .ok () ∧
    (deleteSpace cfgParentChild alice 1).1.spaces = [0] ∧
    (getS (deleteSpace cfgParentChild alice 1).1 0).children = some [] := by
  have hParent := C6_delete_semantics cfgParentChild alice 0 (by decide) (by decide)
  have hChild := C6_delete_semantics cfgParentChild alice 1 (by decide) (by decide)
  have h2 := hChild.2 (Or.inl rfl)
  refine ⟨hParent.1 [1] rfl (by decide), h2.1, ?_, ?_⟩
  · rw [h2.2.1]
    rfl
  · rw [h2.2.2.2 0 rfl]
    rfl

/-- C7: a mutating operation whose target exists but is not owned by the
caller (for moveSpace: either the space or the new parent) fails with
OwnershipMismatch and changes nothing. -/
theorem C7_ownership_mismatch (cfg : Config) (o : User) (s np : Nat) (nn : String) :
    (s ∈ cfg.spaces → np ∈ cfg.spaces →
      ((getS cfg s).owner.username ≠ o.username ∨
        (getS cfg np).owner.username ≠ o.username) →
      moveSpace cfg o s np = (cfg, .error .OwnershipMismatch)) ∧
    (s ∈ cfg.spaces → (getS cfg s).owner.username ≠ o.username →
      renameSpace cfg o s nn = (cfg, .error .OwnershipMismatch)) ∧
    (s ∈ cfg.spaces → (getS cfg s).owner.username ≠ o.username →
      deleteSpace cfg o s = (cfg, .error .OwnershipMismatch)) := by
  refine ⟨?_, ?_, ?_⟩
  · intro hs hnp hno
    unfold moveSpace
    rw [if_pos ⟨hs, hnp⟩, if_neg ?_]
    intro hand
    rcases hno with h | h
    · exact h hand.1
    · exact h hand.2
  · intro hs hno
    unfold renameSpace
    rw [if_pos hs, if_neg hno]
  · intro hs hno
    unfold deleteSpace
    rw [if_pos hs, if_neg hno]

/-- C7 witness: bob cannot move, rename or delete alice's spaces. -/
theorem C7_witness :
    moveSpace cfgParentChild bob 1 0 = (cfgParentChild, .error .OwnershipMismatch) ∧
    renameSpace cfgOneRoot bob 0 "z" = (cfgOneRoot, .error .OwnershipMismatch) ∧
    deleteSpace cfgOneRoot bob 0 = (cfgOneRoot, .error .OwnershipMismatch) := by
  have h1 := (C7_ownership_mismatch cfgParentChild bob 1 0 "z").1 (by decide)
    (by decide) (Or.inl (by decide))
  have h2 := C7_ownership_mismatch cfgOneRoot bob 0 0 "z"
  exact ⟨h1, h2.2.1 (by decide) (by decide), h2.2.2 (by decide) (by decide)⟩

theorem kidsOf_out_of_range (cfg : Config) (q : Nat)
    (h : cfg.heap.length ≤ q) : kidsOf cfg q = [] := by
  unfold kidsOf getS
  rw [List.getD_eq_default _ _ h]
  rfl

/-- Characterisation of a successful `createSpace`: the returned id is
the fresh one and the store is the `pushNew` update. -/
theorem createSpace_ok_state (cfg : Config) (o : User) (n t : String)
    (parent : Option Nat) (id : Nat)
    (hok : (createSpace cfg o n t parent).2 = .ok id) :
    id = cfg.heap.length ∧
    (createSpace cfg o n t parent).1 = (pushNew cfg o n t parent).1 := by
  unfold createSpace at hok ⊢
  cases parent with
  | none =>
    dsimp only at hok ⊢
    by_cases hcl : rootClash cfg o n
    · rw [if_pos hcl] at hok
      exact Except.noConfusion hok
    · rw [if_neg hcl] at hok ⊢
      rw [pushNew_ok] at hok
      exact ⟨(Except.ok.inj hok).symm, rfl⟩
  | some pid =>
    dsimp only at hok ⊢
    cases hk : (getS cfg pid).children with
    | some kids =>
      rw [hk] at hok
      dsimp only at hok ⊢
      by_cases hcl : childClash cfg kids n
      · rw [if_pos hcl] at hok
        exact Except.noConfusion hok
      · rw [if_neg hcl] at hok ⊢
        rw [pushNew_ok] at hok
        exact ⟨(Except.ok.inj hok).symm, rfl⟩
    | none =>
      rw [hk] at hok
      dsimp only at hok ⊢
      by_cases hcl : rootClash cfg o n
      · rw [if_pos hcl] at hok
        exact Except.noConfusion hok
      · rw [if_neg hcl] at hok ⊢
        rw [pushNew_ok] at hok
        exact ⟨(Except.ok.inj hok).symm, rfl⟩

/-- C8: a successful moveSpace keeps the backing collection (hence the
total number of Spaces) unchanged, points the moved space at its new
parent, puts it in the new parent's children, and leaves it in no other
children cache — it appears in exactly one parent's children. -/
theorem C8_move_success_effects (cfg : Config) (o : User) (s np : Nat)
    (hI : StoreInv cfg) (hok : (moveSpace cfg o s np).2 = .ok ()) :
    (moveSpace cfg o s np).1.spaces = cfg.spaces ∧
    (moveSpace cfg o s np).1.spaces.length = cfg.spaces.length ∧
    (getS (moveSpace cfg o s np).1 s).parent = some np ∧
    s ∈ kidsOf (moveSpace cfg o s np).1 np ∧
    (∀ q, q ≠ np → s ∉ kidsOf (moveSpace cfg o s np).1 q) := by
  obtain ⟨hs, hnp, hows, hownp, hcl, hstate⟩ := moveSpace_ok_state cfg o s np hok
  obtain ⟨hA1, hA2, hA3, hA4, hA5, hA6⟩ := hI
  have hslen := hA1 s hs
  have hnplen := hA1 np hnp
  have hsnotkid : s ∉ kidsOf cfg np := fun h => hcl ⟨s, h, rfl⟩
  rw [hstate]
  cases hps : (getS cfg s).parent with
  | none =>
    dsimp only
    have hsp : (setParent (attachChild cfg np s) s (some np)).spaces = cfg.spaces := by
      rw [setParent_spaces, attachChild_spaces]
    have hslen2 : s < (attachChild cfg np s).heap.length := by
      rw [attachChild_heap_length]
      exact hslen
    refine ⟨hsp, by rw [hsp], ?_, ?_, ?_⟩
    · rw [parent_setParent, if_pos ⟨rfl, hslen2⟩]
    · rw [kidsOf_setParent, kidsOf_attachChild, if_pos ⟨rfl, hnplen⟩]
      exact mem_concat_iff.mpr (Or.inr rfl)
    · intro q hq
      rw [kidsOf_setParent, kidsOf_attachChild, if_neg (fun hh => hq hh.1)]
      intro hmem
      by_cases hqlen : q < cfg.heap.length
      · have h2 := (hA4 q hqlen s hmem).2
        rw [hps] at h2
        exact Option.noConfusion h2
      · rw [kidsOf_out_of_range cfg q (Nat.le_of_not_lt hqlen)] at hmem
        exact absurd hmem (List.not_mem_nil s)
  | some op =>
    dsimp only
    have hsp : (setParent (attachChild (detachChild cfg op s) np s) s
        (some np)).spaces = cfg.spaces := by
      rw [setParent_spaces, attachChild_spaces, detachChild_spaces]
    have hslen2 : s < (attachChild (detachChild cfg op s) np s).heap.length := by
      rw [attachChild_heap_length, detachChild_heap_length]
      exact hslen
    have hnplen1 : np < (detachChild cfg op s).heap.length := by
      rw [detachChild_heap_length]
      exact hnplen
    have hopkid := hA3 s hs op hps
    have hopnp : op ≠ np := fun h => hsnotkid (h ▸ hopkid.2)
    refine ⟨hsp, by rw [hsp], ?_, ?_, ?_⟩
    · rw [parent_setParent, if_pos ⟨rfl, hslen2⟩]
    · rw [kidsOf_setParent, kidsOf_attachChild, if_pos ⟨rfl, hnplen1⟩]
      exact mem_concat_iff.mpr (Or.inr rfl)
    · intro q hq
      rw [kidsOf_setParent, kidsOf_attachChild, if_neg (fun hh => hq hh.1),
        kidsOf_detachChild]
      by_cases hqop : q = op
      · subst hqop
        rw [if_pos ⟨rfl, hopkid.1⟩]
        intro hmem
        exact (mem_filter_ne.mp hmem).2 rfl
      · rw [if_neg (fun hh => hqop hh.1)]
        intro hmem
        by_cases hqlen : q < cfg.heap.length
        · have h2 := (hA4 q hqlen s hmem).2
          rw [hps] at h2
          exact hqop (Option.some.inj h2).symm
        · rw [kidsOf_out_of_range cfg q (Nat.le_of_not_lt hqlen)] at hmem
          exact absurd hmem (List.not_mem_nil s)

/-- C8 witness: moving "drawer 1" from the dresser to the shelf. -/
theorem C8_witness :
    (moveSpace cfgDresser alice 2 1).1.spaces = cfgDresser.spaces ∧
    (getS (moveSpace cfgDresser alice 2 1).1 2).parent = some 1 ∧
    2 ∈ kidsOf (moveSpace cfgDresser alice 2 1).1 1 ∧
    (∀ q, q ≠ 1 → 2 ∉ kidsOf (moveSpace cfgDresser alice 2 1).1 q) := by
  have h := C8_move_success_effects cfgDresser alice 2 1 (by decide) rfl
  exact ⟨h.1, h.2.2.1, h.2.2.2.1, h.2.2.2.2⟩

/-- C9: a successful createSpace returns a space whose children field is
uninitialised — it starts childless, the children query reports no
children — appends the fresh id to the backing collection, and, when a
parent was given, appends the fresh id to the parent's children cache. -/
theorem C9_create_starts_childless (cfg : Config) (o : User) (n t : String)
    (parent : Option Nat) (id : Nat)
    (hp : ∀ pid, parent = some pid → pid < cfg.heap.length)
    (hok : (createSpace cfg o n t parent).2 = .ok id) :
    (getS (createSpace cfg o n t parent).1 id).children = none ∧
    getSpaceChildren (createSpace cfg o n t parent).1 id = none ∧
    kidsOf (createSpace cfg o n t parent).1 id = [] ∧
    (createSpace cfg o n t parent).1.spaces = cfg.spaces ++ [id] ∧
    (∀ pid, parent = some pid →
      (getS (createSpace cfg o n t parent).1 pid).children
        = some (kidsOf cfg pid ++ [id])) := by
  obtain ⟨hid, hstate⟩ := createSpace_ok_state cfg o n t parent id hok
  subst hid
  rw [hstate]
  unfold pushNew
  dsimp only
  cases parent with
  | none =>
    dsimp only
    have hch : (getS ⟨cfg.heap ++ [(⟨o, n, t, none, none⟩ : SpaceData)],
        cfg.spaces ++ [cfg.heap.length]⟩ cfg.heap.length).children = none := by
      rw [getS_append_len]
    refine ⟨hch, hch, ?_, rfl, fun pid hh => Option.noConfusion hh⟩
    unfold kidsOf
    rw [hch]
    rfl
  | some pid =>
    dsimp only
    have hpid := hp pid rfl
    have hNpid : pid ≠ cfg.heap.length := Nat.ne_of_lt hpid
    rw [show (cfg.heap ++ [(⟨o, n, t, some pid, none⟩ : SpaceData)]).getD pid default
        = getS cfg pid from getD_append_lt_gen _ _ _ _ hpid]
    have hch : (getS ⟨(cfg.heap ++ [(⟨o, n, t, some pid, none⟩ : SpaceData)]).set pid
        { getS cfg pid with children := some ((getS cfg pid).children.getD []
            ++ [cfg.heap.length]) },
        cfg.spaces ++ [cfg.heap.length]⟩ cfg.heap.length).children = none := by
      rw [getS_set_ne hNpid, getS_append_len]
    have hpid1 : pid < (cfg.heap ++ [(⟨o, n, t, some pid, none⟩ : SpaceData)]).length := by
      simp only [List.length_append, List.length_singleton]
      exact Nat.lt_succ_of_lt hpid
    refine ⟨hch, hch, ?_, rfl, ?_⟩
    · unfold kidsOf
      rw [hch]
      rfl
    · intro pid' hh
      cases hh
      rw [getS_set_eq hpid1]
      rfl

/-- C9 witness: creating "b" under the root "a". -/
theorem C9_witness :
    (getS (createSpace cfgOneRoot alice "b" "t" (some 0)).1 1).children = none ∧
    getSpaceChildren (createSpace cfgOneRoot alice "b" "t" (some 0)).1 1 = none ∧
    (createSpace cfgOneRoot alice "b" "t" (some 0)).1.spaces = [0, 1] ∧
    (getS (createSpace cfgOneRoot alice "b" "t" (some 0)).1 0).children = some [1] := by
  have h := C9_create_starts_childless cfgOneRoot alice "b" "t" (some 0) 1
    (fun pid hh => by cases hh; decide) rfl
  refine ⟨h.1, h.2.1, ?_, ?_⟩
  · rw [h.2.2.2.1]
    rfl
  · rw [h.2.2.2.2 0 rfl]
    rfl

/-- C10: moving a space to the parent it already has can never succeed
and changes nothing; when the existence and ownership checks pass, the
reported failure is precisely the name conflict of the space with itself
among its parent's children. -/
theorem C10_move_to_current_parent (cfg : Config) (o : User) (s p : Nat)
    (hI : StoreInv cfg) (hs : s ∈ cfg.spaces)
    (hp : (getS cfg s).parent = some p) :
    ((moveSpace cfg o s p).1 = cfg ∧ ∀ u, (moveSpace cfg o s p).2 ≠ .ok u) ∧
    (p ∈ cfg.spaces → (getS cfg s).owner.username = o.username →
      (getS cfg p).owner.username = o.username →
      moveSpace cfg o s p = (cfg, .error .NameConflict)) := by
  obtain ⟨hplen, hskid⟩ := hI.2.2.1 s hs p hp
  have hclash : childClash cfg ((getS cfg p).children.getD []) ((getS cfg s).name) :=
    ⟨s, hskid, rfl⟩
  constructor
  · unfold moveSpace
    by_cases hmem : s ∈ cfg.spaces ∧ p ∈ cfg.spaces
    · rw [if_pos hmem]
      by_cases how : (getS cfg s).owner.username = o.username ∧
          (getS cfg p).owner.username = o.username
      · rw [if_pos how, if_pos hclash]
        exact ⟨rfl, fun u h => Except.noConfusion h⟩
      · rw [if_neg how]
        exact ⟨rfl, fun u h => Except.noConfusion h⟩
    · rw [if_neg hmem]
      exact ⟨rfl, fun u h => Except.noConfusion h⟩
  · intro hpmem hows howp
    unfold moveSpace
    rw [if_pos ⟨hs, hpmem⟩, if_pos ⟨hows, howp⟩, if_pos hclash]

/-- C10 witness: moving "b" back under its current parent "a". -/
theorem C10_witness :
    (moveSpace cfgParentChild alice 1 0).1 = cfgParentChild ∧
    moveSpace cfgParentChild alice 1 0 = (cfgParentChild, .error .NameConflict) := by
  have h := C10_move_to_current_parent cfgParentChild alice 1 0 (by decide)
    (by decide) rfl
  exact ⟨h.1.1, h.2 (by decide) (by decide) (by decide)⟩
